import Mathlib

/-!
Verification of the dynamicIndexList data-source synchronization engine.

The provider implementation (`DynamicIndexListDataSourceProvider` and its
per-list connection state) is exercised by `unit/unittest_dynamicindexlist.cpp`
but its own translation unit is not part of the source tree given here, so the
engine is modelled from the specification, with the behaviour at the points the
unit tests pin down taken from those tests (each such point is noted in the
doc comment of the definition concerned).

The model covers:
- the bounds-and-item window (`Window`) with its CRUD operations
  (insert / replace / delete / insertRange / deleteRange),
- the CRUD sequencer (`processCrud`): version gating, duplicate detection,
  out-of-order buffering and draining, and the persistent fail state,
- load responses (`applyLoadResponse`): item materialization, bounds
  reconciliation with eviction and diagnostics,
- the registry level dispatcher (`processUpdate`) including list-id and
  correlation-token matching,
- the fetch retry machine (`onFailedAttempt` / `runFailedAttempts`).
-/

namespace DynIdx

/-- Item payloads are opaque tagged values in the engine; the engine never
inspects them, so they are modelled as integers. -/
abbrev Item := Int

/-- Spec section 7 error taxonomy. -/
inductive ErrorReason where
  | INVALID_LIST_ID
  | INTERNAL_ERROR
  | INVALID_OPERATION
  | LIST_INDEX_OUT_OF_RANGE
  | MISSING_LIST_VERSION_IN_SEND_DATA
  | MISSING_LIST_VERSION
  | DUPLICATE_LIST_VERSION
deriving DecidableEq, Repr

/-- Modelled from the spec: per-registry configuration, immutable after
construction (spec section 3). -/
structure Config where
  cacheChunkSize : Nat
  listUpdateBufferSize : Nat
  fetchRetries : Nat
  fetchTimeoutMs : Nat
  cacheExpiryTimeoutMs : Nat
deriving DecidableEq, Repr

/-- Spec section 3 defaults: chunk size 10, buffer size 5, retries 2,
fetch timeout 5000, expiry 5000. -/
def defaultConfig : Config := ⟨10, 5, 2, 5000, 5000⟩

/-- Here `none` stands for an unbounded (±∞) bound (spec section 3: bounds may be
unbounded until a response constrains them). `geMin b i` holds when index `i`
is at or above the lower bound. -/
def geMin : Option Int → Int → Bool
  | none, _ => true
  | some m, i => decide (m ≤ i)

/-- Predicate `ltMax b i` holds when index `i` is strictly below the upper bound. -/
def ltMax : Option Int → Int → Bool
  | none, _ => true
  | some m, i => decide (i < m)

/-- Index lies in the current bounds `[min, max)`. -/
def inBounds (minB maxB : Option Int) (i : Int) : Bool :=
  geMin minB i && ltMax maxB i

/-- Modelled from the spec: the Bounds & Item Window (spec section 4.1 and the
data model of section 3): bounds `[minimumInclusiveIndex,
maximumExclusiveIndex)`, possibly open at either end, plus a partial mapping
from integer index to item value. -/
structure Window where
  minB : Option Int
  maxB : Option Int
  items : List (Int × Item)
deriving DecidableEq, Repr

/-- Association-list lookup of the item materialized at an index. -/
def lookupIdx : List (Int × Item) → Int → Option Item
  | [], _ => none
  | p :: rest, i => if p.fst = i then some p.snd else lookupIdx rest i

/-- The materialized mapping of the window. -/
def itemAt (w : Window) (i : Int) : Option Item :=
  lookupIdx w.items i

/-- Smallest materialized index. -/
def lowIdx : List (Int × Item) → Option Int
  | [] => none
  | p :: rest =>
    some (match lowIdx rest with
          | none => p.fst
          | some m => min p.fst m)

/-- Largest materialized index. -/
def highIdx : List (Int × Item) → Option Int
  | [] => none
  | p :: rest =>
    some (match highIdx rest with
          | none => p.fst
          | some m => max p.fst m)

/-- Shift every entry whose index is at least `t` by `k`. -/
def shiftFrom (k t : Int) (l : List (Int × Item)) : List (Int × Item) :=
  l.map (fun p => if t ≤ p.fst then (p.fst + k, p.snd) else p)

/-- The consecutive pairs `(i, v₀), (i+1, v₁), …` of a response chunk or an
inserted run of items. -/
def seqFrom (i : Int) : List Item → List (Int × Item)
  | [] => []
  | v :: rest => (i, v) :: seqFrom (i + 1) rest

/-- Place `vs` at indices `i, i+1, …`: materialized indices at or above `i`
shift up by the item count and `maximumExclusiveIndex` grows by it
(spec section 4.1: `insertAt` shifts the upper bound by the delta item count
and re-indexes materialized items accordingly). This is the placement
primitive; a single insert places at its target index
(`CrudBoundsVerification`), while the multi-item insert chooses its placement
index by sign — see `insertRangeItems`. -/
def insertItems (w : Window) (i : Int) (vs : List Item) : Window :=
  { w with
    items := seqFrom i vs ++ shiftFrom (vs.length : Int) i w.items,
    maxB := w.maxB.map (· + (vs.length : Int)) }

/-- Modelled from the tests: `InsertMultipleItems` places its range AT the
target index when the index is non-negative, but AFTER the item at the target
index when it is negative — `CrudMultiInsert` pins both: at index `-3` of the
fully materialized `[-5,5)` window the children become
`{-5,-4,-3,-31,-32,-2,…}` (the item at `-3` un-shifted, the range at
`-2,-1`), while at index `3` of the same run the children become
`{…,-1,0,31,32,1,…}` (the range at `3,4`, shifting the old occupant of index
3 up). -/
def insertRangeItems (w : Window) (i : Int) (vs : List Item) : Window :=
  if i < 0 then insertItems w (i + 1) vs else insertItems w i vs

/-- Delete the `k` indices starting at `i`: higher indices shift down by `k`
and `maximumExclusiveIndex` shrinks by `k` (spec section 4.1). -/
def deleteItems (w : Window) (i : Int) (k : Nat) : Window :=
  { w with
    items := shiftFrom (-(k : Int)) (i + (k : Int))
      (w.items.filter (fun p => decide (p.fst < i) || decide (i + (k : Int) ≤ p.fst))),
    maxB := w.maxB.map (· - (k : Int)) }

/-- Replace the item at index `i` in place. -/
def replaceItem (w : Window) (i : Int) (v : Item) : Window :=
  { w with items := w.items.map (fun p => if p.fst = i then (i, v) else p) }

/-- Modelled from the spec: legality of an insert target. The spec words a
target as legal when inside the window or exactly adjacent to it for an
insert; the unit tests `CrudInsertAdjascent` and `CrudMultiDeleteMore` pin the
window in question as the contiguous materialized run `[lo, hi]` (an insert at
`hi + 1` or anywhere in `[lo, hi]` is legal, an insert at `lo - 1` is not,
even when `lo - 1` still lies inside the declared bounds). For a window with
no materialized items the declared bounds (with the upper bound inclusive,
append being legal at the boundary) are the only constraint. -/
def canInsertAt (w : Window) (i : Int) : Bool :=
  match lowIdx w.items, highIdx w.items with
  | some lo, some hi => decide (lo ≤ i) && decide (i ≤ hi + 1)
  | _, _ =>
    geMin w.minB i &&
      (match w.maxB with
       | none => true
       | some m => decide (i ≤ m))

/-- Legality of a replace or single delete target: it must be a materialized
index of the contiguous run. -/
def canUpdateAt (w : Window) (i : Int) : Bool :=
  match lowIdx w.items, highIdx w.items with
  | some lo, some hi => decide (lo ≤ i) && decide (i ≤ hi)
  | _, _ => false

/-- Legality of deleting `k` indices starting at `i`: all of them must be
materialized (test `CrudMultiDeleteMore`: deleting 3 items out of a singleton
window is out of range). -/
def canDeleteRange (w : Window) (i : Int) (k : Nat) : Bool :=
  match lowIdx w.items, highIdx w.items with
  | some lo, some hi => decide (lo ≤ i) && decide (i + (k : Int) ≤ hi + 1)
  | _, _ => false

/-- Mutation operations carried by a batch (spec section 4.3). `malformed`
stands for an unknown or structurally malformed operation entry. -/
inductive Operation where
  | insert (index : Int) (item : Item)
  | replace (index : Int) (item : Item)
  | delete (index : Int)
  | insertRange (index : Int) (items : List Item)
  | deleteRange (index : Int) (count : Nat)
  | malformed
deriving DecidableEq, Repr

/-- Apply one operation against the window, or fail with the diagnostic the
sequencer reports for it. -/
def applyOp (w : Window) : Operation → Except ErrorReason Window
  | .insert i v =>
    if canInsertAt w i then .ok (insertItems w i [v])
    else .error .LIST_INDEX_OUT_OF_RANGE
  | .replace i v =>
    if canUpdateAt w i then .ok (replaceItem w i v)
    else .error .LIST_INDEX_OUT_OF_RANGE
  | .delete i =>
    if canUpdateAt w i then .ok (deleteItems w i 1)
    else .error .LIST_INDEX_OUT_OF_RANGE
  | .insertRange i vs =>
    if canInsertAt w i then .ok (insertRangeItems w i vs)
    else .error .LIST_INDEX_OUT_OF_RANGE
  | .deleteRange i k =>
    if canDeleteRange w i k then .ok (deleteItems w i k)
    else .error .LIST_INDEX_OUT_OF_RANGE
  | .malformed => .error .INVALID_OPERATION

/-- Apply operations in array order; the first failing operation aborts the
remainder of the batch but leaves the effect of the earlier operations in
place (spec section 4.3 rule 3). Returns the window as mutated so far and the
diagnostic of the failing operation, if any. -/
def applyOps (w : Window) : List Operation → Window × Option ErrorReason
  | [] => (w, none)
  | op :: rest =>
    match applyOp w op with
    | .ok w2 => applyOps w2 rest
    | .error e => (w, some e)

/-- A mutation batch: its declared `listVersion` (absent when the payload
omits it) and its ordered operations (spec section 4.3). -/
structure Batch where
  version : Option Int
  ops : List Operation
deriving DecidableEq, Repr

/-- Modelled from the spec: the per-list state of the CRUD sequencer.
`currentVersion` starts at 0 for a freshly created list — the unit tests
(`CrudOutOfOrder`) pin this: on a fresh list a batch with version 2 is
buffered, not taken as a baseline, and version 1 is the one that applies.
`failState` records that a batch has failed validation; spec section 7 lists
post-failure operations under `INTERNAL_ERROR` and every CRUD failure test
verifies the subsequent rejection. -/
structure ListState where
  window : Window
  currentVersion : Int
  buffered : List (Int × List Operation)
  failState : Bool
  errors : List ErrorReason
deriving DecidableEq, Repr

/-- Is a version already present in the out-of-order buffer? -/
def bufferHas (buf : List (Int × List Operation)) (v : Int) : Bool :=
  buf.any (fun b => decide (b.fst = v))

/-- The buffer is an ordered collection keyed by version (spec section 3). -/
def insertSorted : List (Int × List Operation) → Int → List Operation →
    List (Int × List Operation)
  | [], v, ops => [(v, ops)]
  | b :: rest, v, ops =>
    if v < b.fst then (v, ops) :: b :: rest
    else b :: insertSorted rest v ops

/-- Operations buffered under a version, if any. -/
def lookupBuf : List (Int × List Operation) → Int → Option (List Operation)
  | [], _ => none
  | b :: rest, v => if b.fst = v then some b.snd else lookupBuf rest v

/-- Drop a version's entry from the buffer. -/
def removeBuf (buf : List (Int × List Operation)) (v : Int) :
    List (Int × List Operation) :=
  buf.filter (fun b => ¬ b.fst = v)

/-- Drain now-contiguous buffered mutations after a successful application
(spec section 4.3 rule 3: on success, `currentVersion` advances and any
now-contiguous buffered mutations are applied transitively in the same
manner). `fuel` is an upper bound on the drained entries; it is instantiated
with the buffer length, which strictly decreases at every step. -/
def drain : Nat → ListState → ListState
  | 0, s => s
  | fuel + 1, s =>
    match lookupBuf s.buffered (s.currentVersion + 1) with
    | none => s
    | some ops =>
      let s1 : ListState :=
        { s with buffered := removeBuf s.buffered (s.currentVersion + 1) }
      match applyOps s1.window ops with
      | (w2, none) =>
        drain fuel { s1 with window := w2, currentVersion := s1.currentVersion + 1 }
      | (w2, some e) =>
        { s1 with window := w2, errors := s1.errors ++ [e], failState := true }

/-- Modelled from the spec: the CRUD sequencer acceptance rule
(spec section 4.3):
1. a batch with no version is rejected with
   `MISSING_LIST_VERSION_IN_SEND_DATA` (test `CrudPayloadNoListVersion`);
2. a version at most `currentVersion`, or one already buffered, is rejected
   as `DUPLICATE_LIST_VERSION`;
3. version `currentVersion + 1` applies its operations in order; a mid-batch
   failure keeps the already-applied prefix, reports the failing operation's
   diagnostic and puts the list in the fail state; on success the buffer is
   drained;
4. a version further ahead is buffered up to the configured capacity and the
   call reports failure; overflow is rejected with `INTERNAL_ERROR`.
Once in the fail state every batch is rejected with one `INTERNAL_ERROR`
(spec section 7, post-failure operations; all the `Crud…` failure tests). -/
def processCrud (cfg : Config) (s : ListState) (b : Batch) : Bool × ListState :=
  if s.failState then
    (false, { s with errors := s.errors ++ [.INTERNAL_ERROR] })
  else
    match b.version with
    | none => (false, { s with errors := s.errors ++ [.MISSING_LIST_VERSION_IN_SEND_DATA] })
    | some v =>
      if decide (v ≤ s.currentVersion) || bufferHas s.buffered v then
        (false, { s with errors := s.errors ++ [.DUPLICATE_LIST_VERSION] })
      else if v = s.currentVersion + 1 then
        match applyOps s.window b.ops with
        | (w2, none) =>
          (true, drain s.buffered.length { s with window := w2, currentVersion := v })
        | (w2, some e) =>
          (false, { s with window := w2, errors := s.errors ++ [e], failState := true })
      else
        if s.buffered.length < cfg.listUpdateBufferSize then
          (false, { s with buffered := insertSorted s.buffered v b.ops })
        else
          (false, { s with errors := s.errors ++ [.INTERNAL_ERROR] })

/-- An inbound load response (spec section 6): correlation token, start index,
items, and optionally supplied bounds. -/
structure LoadResponse where
  listId : Nat
  correlationToken : Nat
  startIndex : Int
  items : List Item
  minSupplied : Option Int
  maxSupplied : Option Int
deriving DecidableEq, Repr

/-- The bound resulting from a response: supplied value, or the current one. -/
def newBound (cur sup : Option Int) : Option Int :=
  match sup with
  | none => cur
  | some b => some b

/-- Did the response change either bound? -/
def boundsChanged (w : Window) (r : LoadResponse) : Bool :=
  decide (newBound w.minB r.minSupplied ≠ w.minB) ||
    decide (newBound w.maxB r.maxSupplied ≠ w.maxB)

/-- Evict every materialized item now outside the bounds. -/
def evict (w : Window) : Window :=
  { w with items := w.items.filter (fun p => inBounds w.minB w.maxB p.fst) }

/-- The window with the bounds a response supplied installed. -/
def reconciledWindow (w : Window) (r : LoadResponse) : Window :=
  { w with minB := newBound w.minB r.minSupplied,
           maxB := newBound w.maxB r.maxSupplied }

/-- Insert or overwrite the entry at one index. -/
def putItem : List (Int × Item) → Int → Item → List (Int × Item)
  | [], i, v => [(i, v)]
  | p :: rest, i, v => if p.fst = i then (i, v) :: rest else p :: putItem rest i v

/-- Materialize response pairs, dropping the ones outside the bounds; the
flag records whether anything was dropped. -/
def loadPairs (w : Window) : List (Int × Item) → Window × Bool
  | [] => (w, false)
  | (i, v) :: rest =>
    if inBounds w.minB w.maxB i then
      loadPairs { w with items := putItem w.items i v } rest
    else
      let res := loadPairs w rest
      (res.fst, true)

/-- Modelled from the spec: `applyLoadResponse` of the Bounds & Item Window
(spec section 4.1) — items are materialized at `[startIndex, startIndex+len)`
and supplied bounds are reconciled. The diagnostics are pinned by the
`BoundsShrink…` / `BoundsExpand…` / `UnknownBounds` tests: any runtime bounds
change (shrink or expansion alike) enqueues exactly one `INTERNAL_ERROR`, a
response whose own items fall outside the (new) bounds enqueues one more, and
the eviction of now-out-of-range materialized items is silent.
(`BoundsShrinkBottom`/`Top` each expect one diagnostic, `BoundsShrinkFull`
two — change plus dropped items — and all three `BoundsExpand…` tests expect
exactly one.) -/
def applyLoadResponse (w : Window) (r : LoadResponse) : Window × List ErrorReason :=
  let changed := boundsChanged w r
  let w1 := if changed then evict (reconciledWindow w r) else w
  let res := loadPairs w1 (seqFrom r.startIndex r.items)
  (res.fst,
   (if changed then [.INTERNAL_ERROR] else []) ++
     (if res.snd then [.INTERNAL_ERROR] else []))

/-- One outstanding fetch request of the Fetch/Retry Controller
(spec section 4.2): its range, every correlation token issued for it so far
(a late response to a pre-retry token still fulfills it — test
`LazyResponseTimeoutResolvedAfterDelayed`), and the retries remaining. -/
structure FetchRecord where
  startIndex : Int
  count : Nat
  tokens : List Nat
  retriesLeft : Nat
deriving DecidableEq, Repr

/-- Outbound consequences of the retry machine: a re-issued fetch-request
event, or the single terminal failure diagnostic of a range. -/
inductive FetchSignal where
  | request (startIndex : Int) (count : Nat) (token : Nat)
  | terminalFailure (startIndex : Int) (count : Nat)
deriving DecidableEq, Repr

/-- Modelled from the spec: one failed attempt — a timeout expiry with no
response, or an empty matching response (spec section 4.2, both consume one
retry). With retries remaining the same range is re-requested under a fresh
correlation token; otherwise the request transitions to `Failed`, is dropped
from the outstanding set and emits exactly one terminal diagnostic. Returns
the surviving record (if any), the next free token, and the emitted
signals. -/
def onFailedAttempt (f : FetchRecord) (nextTok : Nat) :
    Option FetchRecord × Nat × List FetchSignal :=
  match f.retriesLeft with
  | r + 1 =>
    (some { f with tokens := nextTok :: f.tokens, retriesLeft := r },
     nextTok + 1, [.request f.startIndex f.count nextTok])
  | 0 => (none, nextTok, [.terminalFailure f.startIndex f.count])

/-- Run `n` consecutive failed attempts against one request, accumulating the
emitted signals. Once the request has terminally failed (record gone) further
expiries and empty responses emit nothing: no fetch request is issued again
for the range until the consumer re-ensures it. -/
def runFailedAttempts : Nat → Option FetchRecord → Nat → List FetchSignal →
    Option FetchRecord × Nat × List FetchSignal
  | 0, f, tok, acc => (f, tok, acc)
  | _ + 1, none, tok, acc => (none, tok, acc)
  | n + 1, some f, tok, acc =>
    let step := onFailedAttempt f tok
    runFailedAttempts n step.fst step.snd.fst (acc ++ step.snd.snd)

/-- Modelled from the spec: the engine for one list (registry entry plus its
fetch controller state): the list identifier, the list state, the outstanding
fetch requests and the next fresh correlation token. -/
structure Engine where
  listId : Nat
  lst : ListState
  fetches : List FetchRecord
  nextToken : Nat
deriving DecidableEq, Repr

/-- Append one diagnostic to the engine's error queue. -/
def pushErr (e : Engine) (err : ErrorReason) : Engine :=
  { e with lst := { e.lst with errors := e.lst.errors ++ [err] } }

/-- The outstanding request owning a correlation token, if any. -/
def findFetch (fs : List FetchRecord) (t : Nat) : Option FetchRecord :=
  fs.find? (fun f => f.tokens.contains t)

/-- Retire the request owning a token (all of its issued tokens with it). -/
def removeFetch (fs : List FetchRecord) (t : Nat) : List FetchRecord :=
  fs.filter (fun f => ¬ f.tokens.contains t)

/-- Fulfill a matching response: hand the items and bounds to the window and
retire the request. -/
def fulfill (e : Engine) (r : LoadResponse) : Engine :=
  let res := applyLoadResponse e.lst.window r
  { e with
    lst := { e.lst with window := res.fst, errors := e.lst.errors ++ res.snd },
    fetches := removeFetch e.fetches r.correlationToken }

/-- Modelled from the spec: processing one inbound load response
(spec sections 4.2 and 4.4):
- matching `listId`, matching token, non-empty: fulfilled;
- matching `listId`, matching token, empty: a failed attempt that consumes
  one retry (`INTERNAL_ERROR`, call fails);
- matching `listId`, unmatched token (including one already resolved):
  rejected with `INTERNAL_ERROR` and no state change;
- mismatched `listId` with a token that matches no outstanding request:
  rejected with `INVALID_LIST_ID` and no state change;
- mismatched `listId` with a matching token: the unit test
  `CorrelationTokenSubstitute` pins that the token substitutes for the list
  resolution — an `INVALID_LIST_ID` diagnostic is enqueued but the response
  is applied to the token's list and the call succeeds. -/
def processLoadResponse (e : Engine) (r : LoadResponse) : Bool × Engine :=
  if r.listId = e.listId then
    match findFetch e.fetches r.correlationToken with
    | none => (false, pushErr e .INTERNAL_ERROR)
    | some f =>
      if r.items.isEmpty then
        let rest := removeFetch e.fetches r.correlationToken
        let step := onFailedAttempt f e.nextToken
        (false,
         { pushErr e .INTERNAL_ERROR with
           fetches := (match step.fst with
                       | some f2 => f2 :: rest
                       | none => rest),
           nextToken := step.snd.fst })
      else (true, fulfill e r)
  else
    match findFetch e.fetches r.correlationToken with
    | some _ => (true, fulfill (pushErr e .INVALID_LIST_ID) r)
    | none => (false, pushErr e .INVALID_LIST_ID)

/-- An inbound payload, classified by the presence of `operations`
(spec section 6). -/
inductive Payload where
  | load (r : LoadResponse)
  | mutation (listId : Nat) (b : Batch)
deriving DecidableEq, Repr

/-- Modelled from the spec: the registry-level `processUpdate`
(spec section 4.4): route the payload to the list it names; a mutation batch
naming an unknown list is rejected with `INVALID_LIST_ID` before any
list-specific logic runs. -/
def processUpdate (cfg : Config) (e : Engine) : Payload → Bool × Engine
  | .load r => processLoadResponse e r
  | .mutation lid b =>
    if lid = e.listId then
      let res := processCrud cfg e.lst b
      (res.fst, { e with lst := res.snd })
    else (false, pushErr e .INVALID_LIST_ID)

/-! ### Lookup lemmas for the window operations -/

theorem lookupIdx_shiftFrom_lt (k t : Int) (l : List (Int × Item)) (j : Int)
    (hk : 0 ≤ k) (hj : j < t) :
    lookupIdx (shiftFrom k t l) j = lookupIdx l j := by
  induction l with
  | nil => rfl
  | cons p rest ih =>
    simp only [shiftFrom, List.map_cons] at *
    by_cases h : t ≤ p.fst
    · rw [if_pos h]
      simp only [lookupIdx]
      rw [if_neg (by omega), if_neg (by omega)]
      exact ih
    · rw [if_neg h]
      simp only [lookupIdx]
      exact if_congr Iff.rfl rfl ih

theorem lookupIdx_shiftFrom_ge (k t : Int) (l : List (Int × Item)) (j : Int)
    (hk : 0 ≤ k) (hj : t + k ≤ j) :
    lookupIdx (shiftFrom k t l) j = lookupIdx l (j - k) := by
  induction l with
  | nil => rfl
  | cons p rest ih =>
    simp only [shiftFrom, List.map_cons] at *
    by_cases h : t ≤ p.fst
    · rw [if_pos h]
      simp only [lookupIdx]
      exact if_congr (by omega) rfl ih
    · rw [if_neg h]
      simp only [lookupIdx]
      rw [if_neg (by omega), if_neg (by omega)]
      exact ih

theorem lookupIdx_seqFrom_append_out (i : Int) (vs : List Item)
    (rest : List (Int × Item)) (j : Int)
    (hj : j < i ∨ i + (vs.length : Int) ≤ j) :
    lookupIdx (seqFrom i vs ++ rest) j = lookupIdx rest j := by
  induction vs generalizing i with
  | nil => rfl
  | cons v vs ih =>
    simp only [seqFrom, List.cons_append, lookupIdx]
    simp only [List.length_cons] at hj
    rw [if_neg (by push_cast at hj ⊢; omega)]
    exact ih (i + 1) (by push_cast at hj ⊢; omega)

theorem itemAt_insertItems_low (w : Window) (i : Int) (vs : List Item) (j : Int)
    (hj : j < i) :
    itemAt (insertItems w i vs) j = itemAt w j := by
  simp only [itemAt, insertItems]
  rw [lookupIdx_seqFrom_append_out i vs _ j (Or.inl hj)]
  exact lookupIdx_shiftFrom_lt _ _ _ _ (by positivity) hj

theorem itemAt_insertItems_high (w : Window) (i : Int) (vs : List Item) (j : Int)
    (hj : i ≤ j) :
    itemAt (insertItems w i vs) (j + (vs.length : Int)) = itemAt w j := by
  simp only [itemAt, insertItems]
  rw [lookupIdx_seqFrom_append_out i vs _ _ (Or.inr (by omega))]
  rw [lookupIdx_shiftFrom_ge _ _ _ _ (by positivity) (by omega)]
  congr 1
  omega

theorem lookupIdx_deleteItems_lt (l : List (Int × Item)) (i : Int) (k : Nat)
    (j : Int) (hj : j < i) :
    lookupIdx (shiftFrom (-(k : Int)) (i + (k : Int))
      (l.filter (fun p => decide (p.fst < i) || decide (i + (k : Int) ≤ p.fst)))) j
      = lookupIdx l j := by
  induction l with
  | nil => rfl
  | cons p rest ih =>
    rw [List.filter_cons]
    by_cases h1 : p.fst < i
    · rw [if_pos (by simp [h1])]
      simp only [shiftFrom, List.map_cons]
      rw [if_neg (by omega)]
      simp only [lookupIdx]
      simp only [shiftFrom] at ih
      exact if_congr Iff.rfl rfl ih
    · by_cases h2 : i + (k : Int) ≤ p.fst
      · rw [if_pos (by simp [h2])]
        simp only [shiftFrom, List.map_cons]
        rw [if_pos h2]
        simp only [lookupIdx]
        rw [if_neg (by omega), if_neg (by omega)]
        exact ih
      · rw [if_neg (by simp [h1, h2])]
        simp only [lookupIdx]
        rw [if_neg (by omega)]
        exact ih

theorem lookupIdx_deleteItems_ge (l : List (Int × Item)) (i : Int) (k : Nat)
    (j : Int) (hj : i ≤ j) :
    lookupIdx (shiftFrom (-(k : Int)) (i + (k : Int))
      (l.filter (fun p => decide (p.fst < i) || decide (i + (k : Int) ≤ p.fst)))) j
      = lookupIdx l (j + (k : Int)) := by
  induction l with
  | nil => rfl
  | cons p rest ih =>
    rw [List.filter_cons]
    by_cases h1 : p.fst < i
    · rw [if_pos (by simp [h1])]
      simp only [shiftFrom, List.map_cons]
      rw [if_neg (by omega)]
      simp only [lookupIdx]
      rw [if_neg (by omega), if_neg (by omega)]
      exact ih
    · by_cases h2 : i + (k : Int) ≤ p.fst
      · rw [if_pos (by simp [h2])]
        simp only [shiftFrom, List.map_cons]
        rw [if_pos h2]
        simp only [lookupIdx]
        exact if_congr (by omega) rfl ih
      · rw [if_neg (by simp [h1, h2])]
        simp only [lookupIdx]
        rw [if_neg (by omega)]
        exact ih

theorem itemAt_deleteItems_low (w : Window) (i : Int) (k : Nat) (j : Int)
    (hj : j < i) :
    itemAt (deleteItems w i k) j = itemAt w j :=
  lookupIdx_deleteItems_lt w.items i k j hj

theorem itemAt_deleteItems_high (w : Window) (i : Int) (k : Nat) (j : Int)
    (hj : i ≤ j) :
    itemAt (deleteItems w i k) j = itemAt w (j + (k : Int)) :=
  lookupIdx_deleteItems_ge w.items i k j hj

theorem applyOp_insertRange_ok {w w2 : Window} {i : Int} {vs : List Item}
    (h : applyOp w (.insertRange i vs) = .ok w2) : w2 = insertRangeItems w i vs := by
  simp only [applyOp] at h
  split at h
  · exact (Except.ok.injEq _ _).mp h |>.symm
  · cases h

theorem applyOp_deleteRange_ok {w w2 : Window} {i : Int} {k : Nat}
    (h : applyOp w (.deleteRange i k) = .ok w2) : w2 = deleteItems w i k := by
  simp only [applyOp] at h
  split at h
  · exact (Except.ok.injEq _ _).mp h |>.symm
  · cases h

theorem applyOp_insert_ok {w w2 : Window} {i : Int} {v : Item}
    (h : applyOp w (.insert i v) = .ok w2) : w2 = insertItems w i [v] := by
  simp only [applyOp] at h
  split at h
  · exact (Except.ok.injEq _ _).mp h |>.symm
  · cases h

theorem applyOp_delete_ok {w w2 : Window} {i : Int}
    (h : applyOp w (.delete i) = .ok w2) : w2 = deleteItems w i 1 := by
  simp only [applyOp] at h
  split at h
  · exact (Except.ok.injEq _ _).mp h |>.symm
  · cases h

/-! ### Concrete fixtures (mirroring the unit-test documents) -/

/-- The `STARTING_BOUNDS_DATA` window: bounds `[-5, 5)`, items `-5 … 4`, each
item value equal to its index. -/
def wStart : Window := ⟨some (-5), some 5, seqFrom (-5) [-5, -4, -3, -2, -1, 0, 1, 2, 3, 4]⟩

/-- The `SINGULAR_DATA` window: bounds `[-5, 5)`, a single item at index 0. -/
def wSingle : Window := ⟨some (-5), some 5, [(0, 0)]⟩

/-- The `SMALLER_DATA` engine: list 7, bounds `[10, 20)`, items `10 … 14`, one
outstanding fetch for `[15, 20)` under correlation token 101 with 2 retries
remaining. -/
def enSmall : Engine :=
  ⟨7, ⟨⟨some 10, some 20, seqFrom 10 [10, 11, 12, 13, 14]⟩, 0, [], false, []⟩,
   [⟨15, 5, [101], 2⟩], 102⟩

/-- Engine for a fresh `STARTING_BOUNDS_DATA` list (list 7, no outstanding
fetches, version 0). -/
def enStart : Engine := ⟨7, ⟨wStart, 0, [], false, []⟩, [], 101⟩

/-- The `RESTRICTED_DATA` window: bounds `[10, 15)`, items `10 … 14`. -/
def wRestricted : Window := ⟨some 10, some 15, seqFrom 10 [10, 11, 12, 13, 14]⟩

/-- Engine for a fresh `RESTRICTED_DATA` list. -/
def enRestricted : Engine := ⟨7, ⟨wRestricted, 0, [], false, []⟩, [], 101⟩

/-- The `RESTRICTED_DATA` engine after a failed batch: in the fail state. -/
def enFailed : Engine := ⟨7, ⟨wRestricted, 0, [], true, [.LIST_INDEX_OUT_OF_RANGE]⟩, [], 101⟩

/-- A window with bounds `[0, 10)` and two materialized items, at indices 1
and 8. -/
def wTwo : Window := ⟨some 0, some 10, [(1, 10), (8, 80)]⟩

/-- An engine over `wTwo` with one outstanding fetch under token 55. -/
def enTwo : Engine := ⟨3, ⟨wTwo, 0, [], false, []⟩, [⟨4, 1, [55], 2⟩], 56⟩

/-! ### C3 — insert/delete shift the upper bound and re-index items -/

theorem lookupIdx_seqFrom_get (vs : List Item) :
    ∀ (i : Int) (rest : List (Int × Item)) (m : Nat), m < vs.length →
      lookupIdx (seqFrom i vs ++ rest) (i + (m : Int)) = vs.get? m := by
  induction vs with
  | nil => intro i rest m hm; exact absurd hm (Nat.not_lt_zero m)
  | cons a vs ih =>
    intro i rest m hm
    cases m with
    | zero =>
      simp [seqFrom, lookupIdx]
    | succ m =>
      simp only [seqFrom, List.cons_append, lookupIdx]
      rw [if_neg (by push_cast; omega)]
      have hcast : i + ((m + 1 : Nat) : Int) = (i + 1) + (m : Int) := by push_cast; ring
      rw [hcast]
      exact ih (i + 1) rest m (by simpa using hm)

theorem itemAt_insertItems_at (w : Window) (i : Int) (vs : List Item) (m : Nat)
    (hm : m < vs.length) :
    itemAt (insertItems w i vs) (i + (m : Int)) = vs.get? m :=
  lookupIdx_seqFrom_get vs i _ m hm

/-- C3 counterexample, mirroring the claim's own cited `CrudMultiInsert` test
(negative step): applying InsertRange of 2 items at index `-3` of the fully
materialized `STARTING_BOUNDS_DATA` window leaves the item at `-3` in place
and puts the range at `-2, -1` — so the materialized index `-3` (which is
`≥ i`) is NOT shifted up by 2 as the claim states: the claim would require
the original item of index `-3` to reappear at `-1`, but `-1` holds the
second inserted item. -/
theorem claim3_counterexample :
    applyOp wStart (.insertRange (-3) [-31, -32]) =
      .ok (insertRangeItems wStart (-3) [-31, -32]) ∧
    itemAt wStart (-3) = some (-3) ∧
    itemAt (insertRangeItems wStart (-3) [-31, -32]) (-3) = some (-3) ∧
    itemAt (insertRangeItems wStart (-3) [-31, -32]) (-2) = some (-31) ∧
    itemAt (insertRangeItems wStart (-3) [-31, -32]) (-1) = some (-32) ∧
    ¬ itemAt (insertRangeItems wStart (-3) [-31, -32]) ((-3 : Int) + 2) =
        itemAt wStart (-3) :=
  ⟨rfl, by decide, by decide, by decide, by decide, by decide⟩

/-- C3 (amended): an applied Insert at index `i` increments
`maximumExclusiveIndex` by 1 and shifts every materialized index at or above
`i` up by 1; an applied InsertRange of `k` items increments the bound by `k`
and shifts by `k` from its placement index — which is `i` itself for a
non-negative `i` but `i + 1` for a negative `i` (the range is inserted after
the item at `i`, which stays un-shifted), with the inserted run materialized
at the placement index; an applied Delete / DeleteRange of count `k`
decrements the bound by 1 (resp. `k`) and shifts higher indices down from
`i`, and deleting the freshly inserted run at its placement index is the
exact inverse of inserting it: the materialized mapping and both bounds
return to their original values. -/
theorem claim3_insert_delete_shift :
    (∀ (w w2 : Window) (i : Int) (vs : List Item),
       applyOp w (.insertRange i vs) = .ok w2 →
       w2.maxB = w.maxB.map (· + (vs.length : Int)) ∧
       w2.minB = w.minB ∧
       (∀ j : Int, (if i < 0 then i + 1 else i) ≤ j →
          itemAt w2 (j + (vs.length : Int)) = itemAt w j) ∧
       (∀ j : Int, j < (if i < 0 then i + 1 else i) → itemAt w2 j = itemAt w j) ∧
       (∀ m : Nat, m < vs.length →
          itemAt w2 ((if i < 0 then i + 1 else i) + (m : Int)) = vs.get? m)) ∧
    (∀ (w w2 : Window) (i : Int) (v : Item),
       applyOp w (.insert i v) = .ok w2 →
       w2.maxB = w.maxB.map (· + 1) ∧
       w2.minB = w.minB ∧
       (∀ j : Int, i ≤ j → itemAt w2 (j + 1) = itemAt w j) ∧
       (∀ j : Int, j < i → itemAt w2 j = itemAt w j)) ∧
    (∀ (w w2 : Window) (i : Int) (k : Nat),
       applyOp w (.deleteRange i k) = .ok w2 →
       w2.maxB = w.maxB.map (· - (k : Int)) ∧
       w2.minB = w.minB ∧
       (∀ j : Int, i ≤ j → itemAt w2 j = itemAt w (j + (k : Int))) ∧
       (∀ j : Int, j < i → itemAt w2 j = itemAt w j)) ∧
    (∀ (w w2 : Window) (i : Int),
       applyOp w (.delete i) = .ok w2 →
       w2.maxB = w.maxB.map (· - 1) ∧
       w2.minB = w.minB ∧
       (∀ j : Int, i ≤ j → itemAt w2 j = itemAt w (j + 1)) ∧
       (∀ j : Int, j < i → itemAt w2 j = itemAt w j)) ∧
    (∀ (w w2 w3 : Window) (i : Int) (vs : List Item),
       applyOp w (.insertRange i vs) = .ok w2 →
       applyOp w2 (.deleteRange (if i < 0 then i + 1 else i) vs.length) = .ok w3 →
       (∀ j : Int, itemAt w3 j = itemAt w j) ∧
       w3.maxB = w.maxB ∧ w3.minB = w.minB) := by
  have hins : ∀ (w : Window) (p : Int) (vs : List Item),
      (insertItems w p vs).maxB = w.maxB.map (· + (vs.length : Int)) ∧
      (insertItems w p vs).minB = w.minB ∧
      (∀ j : Int, p ≤ j → itemAt (insertItems w p vs) (j + (vs.length : Int)) = itemAt w j) ∧
      (∀ j : Int, j < p → itemAt (insertItems w p vs) j = itemAt w j) ∧
      (∀ m : Nat, m < vs.length →
        itemAt (insertItems w p vs) (p + (m : Int)) = vs.get? m) := by
    intro w p vs
    exact ⟨rfl, rfl, fun j hj => itemAt_insertItems_high w p vs j hj,
           fun j hj => itemAt_insertItems_low w p vs j hj,
           fun m hm => itemAt_insertItems_at w p vs m hm⟩
  have hdel : ∀ (w : Window) (i : Int) (k : Nat),
      (deleteItems w i k).maxB = w.maxB.map (· - (k : Int)) ∧
      (deleteItems w i k).minB = w.minB ∧
      (∀ j : Int, i ≤ j → itemAt (deleteItems w i k) j = itemAt w (j + (k : Int))) ∧
      (∀ j : Int, j < i → itemAt (deleteItems w i k) j = itemAt w j) := by
    intro w i k
    exact ⟨rfl, rfl, fun j hj => itemAt_deleteItems_high w i k j hj,
           fun j hj => itemAt_deleteItems_low w i k j hj⟩
  have hrt : ∀ (w : Window) (p : Int) (vs : List Item),
      (∀ j : Int, itemAt (deleteItems (insertItems w p vs) p vs.length) j = itemAt w j) ∧
      (deleteItems (insertItems w p vs) p vs.length).maxB = w.maxB := by
    intro w p vs
    constructor
    · intro j
      by_cases hj : j < p
      · rw [itemAt_deleteItems_low _ p _ j hj, itemAt_insertItems_low w p vs j hj]
      · push_neg at hj
        rw [itemAt_deleteItems_high _ p _ j hj, itemAt_insertItems_high w p vs j hj]
    · simp only [deleteItems, insertItems]
      cases w.maxB with
      | none => rfl
      | some m => simp
  refine ⟨?_, ?_, ?_, ?_, ?_⟩
  · intro w w2 i vs h
    rw [applyOp_insertRange_ok h]
    by_cases hi : i < 0
    · simp only [insertRangeItems, if_pos hi]
      exact hins w (i + 1) vs
    · simp only [insertRangeItems, if_neg hi]
      exact hins w i vs
  · intro w w2 i v h
    rw [applyOp_insert_ok h]
    have := hins w i [v]
    exact ⟨by simpa using this.1, this.2.1, by simpa using this.2.2.1, this.2.2.2.1⟩
  · intro w w2 i k h
    rw [applyOp_deleteRange_ok h]
    exact hdel w i k
  · intro w w2 i h
    rw [applyOp_delete_ok h]
    have := hdel w i 1
    simpa using this
  · intro w w2 w3 i vs h1 h2
    rw [applyOp_insertRange_ok h1] at h2
    rw [applyOp_deleteRange_ok h2]
    by_cases hi : i < 0
    · simp only [insertRangeItems, if_pos hi]
      exact ⟨(hrt w (i + 1) vs).1, (hrt w (i + 1) vs).2, rfl⟩
    · simp only [insertRangeItems, if_neg hi]
      exact ⟨(hrt w i vs).1, (hrt w i vs).2, rfl⟩

/-- C3 witness: the `CrudMultiInsert` negative step — inserting the range
`{-31, -32}` at index `-3` of the `STARTING_BOUNDS_DATA` window places it at
`-2, -1`, grows the upper bound by 2 and shifts the old occupant of index 0
to index 2; deleting two indices at the placement index `-2` restores the
original mapping and bound. -/
theorem claim3_witness :
    applyOp wStart (.insertRange (-3) [-31, -32]) =
      .ok (insertRangeItems wStart (-3) [-31, -32]) ∧
    (insertRangeItems wStart (-3) [-31, -32]).maxB = wStart.maxB.map (· + (2 : Int)) ∧
    itemAt (insertRangeItems wStart (-3) [-31, -32]) 2 = itemAt wStart 0 ∧
    itemAt (insertRangeItems wStart (-3) [-31, -32]) (-2) = some (-31) ∧
    applyOp (insertRangeItems wStart (-3) [-31, -32]) (.deleteRange (-2) 2) =
      .ok (deleteItems (insertRangeItems wStart (-3) [-31, -32]) (-2) 2) ∧
    itemAt (deleteItems (insertRangeItems wStart (-3) [-31, -32]) (-2) 2) 0 =
      itemAt wStart 0 ∧
    (deleteItems (insertRangeItems wStart (-3) [-31, -32]) (-2) 2).maxB = wStart.maxB := by
  have h1 : applyOp wStart (.insertRange (-3) [-31, -32]) =
      .ok (insertRangeItems wStart (-3) [-31, -32]) := by rfl
  have h2 : applyOp (insertRangeItems wStart (-3) [-31, -32]) (.deleteRange (-2) 2) =
      .ok (deleteItems (insertRangeItems wStart (-3) [-31, -32]) (-2) 2) := by rfl
  have hmain := claim3_insert_delete_shift
  have hpart := hmain.1 wStart _ (-3) [-31, -32] h1
  refine ⟨h1, hpart.1, ?_, ?_, h2, ?_, ?_⟩
  · exact hpart.2.2.1 0 (by norm_num)
  · exact hpart.2.2.2.2 0 (by norm_num)
  · exact (hmain.2.2.2.2 wStart _ _ (-3) [-31, -32] h1 h2).1 0
  · exact (hmain.2.2.2.2 wStart _ _ (-3) [-31, -32] h1 h2).2.1.trans (by decide)

/-! ### CRUD sequencer branch lemmas -/

theorem drain_noop {fuel : Nat} {s : ListState}
    (h : lookupBuf s.buffered (s.currentVersion + 1) = none) : drain fuel s = s := by
  cases fuel with
  | zero => rfl
  | succ n => simp only [drain, h]

theorem processCrud_failed {cfg : Config} {s : ListState} {b : Batch}
    (h : s.failState = true) :
    processCrud cfg s b = (false, { s with errors := s.errors ++ [.INTERNAL_ERROR] }) := by
  simp only [processCrud, h, if_true]

theorem processCrud_dup {cfg : Config} {s : ListState} {v : Int} {ops : List Operation}
    (hf : s.failState = false)
    (h : v ≤ s.currentVersion ∨ bufferHas s.buffered v = true) :
    processCrud cfg s ⟨some v, ops⟩ =
      (false, { s with errors := s.errors ++ [.DUPLICATE_LIST_VERSION] }) := by
  simp only [processCrud, hf, Bool.false_eq_true, if_false]
  rw [if_pos]
  rcases h with h | h
  · simp [h]
  · simp [h]

theorem processCrud_apply {cfg : Config} {s : ListState} {v : Int} {ops : List Operation}
    {w2 : Window}
    (hf : s.failState = false) (hv : v = s.currentVersion + 1)
    (hb : bufferHas s.buffered v = false)
    (hops : applyOps s.window ops = (w2, none)) :
    processCrud cfg s ⟨some v, ops⟩ =
      (true, drain s.buffered.length { s with window := w2, currentVersion := v }) := by
  simp only [processCrud, hf, Bool.false_eq_true, if_false]
  rw [if_neg (by simp [hb]; omega), if_pos hv, hops]

theorem processCrud_abort {cfg : Config} {s : ListState} {v : Int} {ops : List Operation}
    {w2 : Window} {e : ErrorReason}
    (hf : s.failState = false) (hv : v = s.currentVersion + 1)
    (hb : bufferHas s.buffered v = false)
    (hops : applyOps s.window ops = (w2, some e)) :
    processCrud cfg s ⟨some v, ops⟩ =
      (false, { s with window := w2, errors := s.errors ++ [e], failState := true }) := by
  simp only [processCrud, hf, Bool.false_eq_true, if_false]
  rw [if_neg (by simp [hb]; omega), if_pos hv, hops]

theorem processCrud_buffer {cfg : Config} {s : ListState} {v : Int} {ops : List Operation}
    (hf : s.failState = false) (hv : s.currentVersion + 1 < v)
    (hb : bufferHas s.buffered v = false)
    (hcap : s.buffered.length < cfg.listUpdateBufferSize) :
    processCrud cfg s ⟨some v, ops⟩ =
      (false, { s with buffered := insertSorted s.buffered v ops }) := by
  simp only [processCrud, hf, Bool.false_eq_true, if_false]
  rw [if_neg (by simp [hb]; omega), if_neg (by omega), if_pos hcap]

theorem processCrud_overflow {cfg : Config} {s : ListState} {v : Int} {ops : List Operation}
    (hf : s.failState = false) (hv : s.currentVersion + 1 < v)
    (hb : bufferHas s.buffered v = false)
    (hcap : cfg.listUpdateBufferSize ≤ s.buffered.length) :
    processCrud cfg s ⟨some v, ops⟩ =
      (false, { s with errors := s.errors ++ [.INTERNAL_ERROR] }) := by
  simp only [processCrud, hf, Bool.false_eq_true, if_false]
  rw [if_neg (by simp [hb]; omega), if_neg (by omega), if_neg (by omega)]

theorem processUpdate_mutation (cfg : Config) (e : Engine) (b : Batch) :
    processUpdate cfg e (.mutation e.listId b) =
      ((processCrud cfg e.lst b).fst, { e with lst := (processCrud cfg e.lst b).snd }) := by
  simp only [processUpdate, if_pos rfl, if_true]

/-! ### C1 — version gating of mutation batches -/

/-- C1: a mutation batch delivered via `processUpdate` is applied iff its
`listVersion` equals `currentVersion + 1`: a version at most `currentVersion`,
or one already present in the out-of-order buffer, is rejected with a
`DUPLICATE_LIST_VERSION` diagnostic and no other state change; the successor
version is applied (the call succeeds and `currentVersion` advances); a
version further ahead is buffered — up to capacity, overflow being rejected
with `INTERNAL_ERROR` — without being applied, the call returning failure. -/
theorem claim1_version_gating :
    ∀ (cfg : Config) (en : Engine) (v : Int) (ops : List Operation),
      en.lst.failState = false →
      ((v ≤ en.lst.currentVersion ∨ bufferHas en.lst.buffered v = true) →
        processUpdate cfg en (.mutation en.listId ⟨some v, ops⟩) =
          (false, { en with lst :=
            { en.lst with errors := en.lst.errors ++ [.DUPLICATE_LIST_VERSION] } })) ∧
      (∀ w2 : Window, v = en.lst.currentVersion + 1 →
        bufferHas en.lst.buffered v = false →
        lookupBuf en.lst.buffered (v + 1) = none →
        applyOps en.lst.window ops = (w2, none) →
        processUpdate cfg en (.mutation en.listId ⟨some v, ops⟩) =
          (true, { en with lst :=
            { en.lst with window := w2, currentVersion := v } })) ∧
      (en.lst.currentVersion + 1 < v →
        bufferHas en.lst.buffered v = false →
        en.lst.buffered.length < cfg.listUpdateBufferSize →
        processUpdate cfg en (.mutation en.listId ⟨some v, ops⟩) =
          (false, { en with lst :=
            { en.lst with buffered := insertSorted en.lst.buffered v ops } })) ∧
      (en.lst.currentVersion + 1 < v →
        bufferHas en.lst.buffered v = false →
        cfg.listUpdateBufferSize ≤ en.lst.buffered.length →
        processUpdate cfg en (.mutation en.listId ⟨some v, ops⟩) =
          (false, { en with lst :=
            { en.lst with errors := en.lst.errors ++ [.INTERNAL_ERROR] } })) := by
  intro cfg en v ops hf
  refine ⟨?_, ?_, ?_, ?_⟩
  · intro h
    rw [processUpdate_mutation, processCrud_dup hf h]
  · intro w2 hv hb hnext hops
    rw [processUpdate_mutation, processCrud_apply hf hv hb hops]
    rw [drain_noop (by simpa [hv] using hnext)]
  · intro hv hb hcap
    rw [processUpdate_mutation, processCrud_buffer hf hv hb hcap]
  · intro hv hb hcap
    rw [processUpdate_mutation, processCrud_overflow hf hv hb hcap]

/-- C1 witness: on the fresh `STARTING_BOUNDS_DATA` engine, version 2 is
buffered with failure, version 0 is rejected as a duplicate, and version 1
applies. -/
theorem claim1_witness :
    (processUpdate defaultConfig enStart
        (.mutation enStart.listId ⟨some 2, [.insert 4 103]⟩) =
      (false, { enStart with lst :=
        { enStart.lst with buffered := insertSorted enStart.lst.buffered 2 [.insert 4 103] } })) ∧
    (processUpdate defaultConfig enStart
        (.mutation enStart.listId ⟨some 0, [.insert 4 103]⟩) =
      (false, { enStart with lst :=
        { enStart.lst with errors := enStart.lst.errors ++ [.DUPLICATE_LIST_VERSION] } })) ∧
    (processUpdate defaultConfig enStart
        (.mutation enStart.listId ⟨some 1, [.insert (-3) (-103)]⟩) =
      (true, { enStart with lst :=
        { enStart.lst with window := insertItems wStart (-3) [-103], currentVersion := 1 } })) := by
  have h := claim1_version_gating defaultConfig enStart
  refine ⟨?_, ?_, ?_⟩
  · exact (h 2 [.insert 4 103] rfl).2.2.1 (by decide) (by decide) (by decide)
  · exact (h 0 [.insert 4 103] rfl).1 (Or.inl (by decide))
  · exact (h 1 [.insert (-3) (-103)] rfl).2.1 (insertItems wStart (-3) [-103])
      (by decide) (by decide) (by decide) (by rfl)

/-! ### C4 — per-operation range validation and mid-batch abort -/

/-- C4 counterexample, mirroring the cited `CrudInsertAdjascent` test: on the
singleton window (bounds `[-5, 5)`, one item at index 0) an insert at index
`-1` has its target strictly inside `[minimumInclusiveIndex,
maximumExclusiveIndex)`, yet it is rejected with `LIST_INDEX_OUT_OF_RANGE` —
the range that validates a CRUD target is the contiguous materialized run,
not the declared bounds, so the claim's acceptance condition is wrong. -/
theorem claim4_counterexample :
    geMin wSingle.minB (-1) = true ∧ ltMax wSingle.maxB (-1) = true ∧
    applyOp wSingle (.insert (-1) (-1)) = .error .LIST_INDEX_OUT_OF_RANGE ∧
    (processCrud defaultConfig ⟨wSingle, 0, [], false, []⟩ ⟨some 1, [.insert (-1) (-1)]⟩).fst
      = false := by
  refine ⟨rfl, rfl, by rfl, by rfl⟩

/-- C4 (amended): within an applied batch an operation succeeds iff its
target lies in the contiguous materialized run `[lo, hi]` of the window — for
an insert or an InsertRange, up to one past the top (`lo ≤ i ≤ hi + 1`,
append and prepend legal at the boundary); for a replace or delete, a
materialized index (`lo ≤ i ≤ hi`); for a DeleteRange of `k`, every targeted
index materialized (`lo ≤ i` and `i + k ≤ hi + 1`) — not the declared bounds
interval of the original claim; the first out-of-range operation aborts the
remainder of the batch with `LIST_INDEX_OUT_OF_RANGE`, already-applied
operations remain in effect, and `processUpdate` returns failure. -/
theorem claim4_window_validation_and_abort :
    (∀ (w : Window) (lo hi i : Int) (v : Item),
       lowIdx w.items = some lo → highIdx w.items = some hi →
       ((lo ≤ i ∧ i ≤ hi + 1) →
          applyOp w (.insert i v) = .ok (insertItems w i [v])) ∧
       (¬ (lo ≤ i ∧ i ≤ hi + 1) →
          applyOp w (.insert i v) = .error .LIST_INDEX_OUT_OF_RANGE)) ∧
    (∀ (w : Window) (lo hi i : Int) (v : Item),
       lowIdx w.items = some lo → highIdx w.items = some hi →
       ((lo ≤ i ∧ i ≤ hi) →
          applyOp w (.replace i v) = .ok (replaceItem w i v) ∧
          applyOp w (.delete i) = .ok (deleteItems w i 1)) ∧
       (¬ (lo ≤ i ∧ i ≤ hi) →
          applyOp w (.replace i v) = .error .LIST_INDEX_OUT_OF_RANGE ∧
          applyOp w (.delete i) = .error .LIST_INDEX_OUT_OF_RANGE)) ∧
    (∀ (w : Window) (lo hi i : Int) (vs : List Item),
       lowIdx w.items = some lo → highIdx w.items = some hi →
       ((lo ≤ i ∧ i ≤ hi + 1) →
          applyOp w (.insertRange i vs) = .ok (insertRangeItems w i vs)) ∧
       (¬ (lo ≤ i ∧ i ≤ hi + 1) →
          applyOp w (.insertRange i vs) = .error .LIST_INDEX_OUT_OF_RANGE)) ∧
    (∀ (w : Window) (lo hi i : Int) (k : Nat),
       lowIdx w.items = some lo → highIdx w.items = some hi →
       ((lo ≤ i ∧ i + (k : Int) ≤ hi + 1) →
          applyOp w (.deleteRange i k) = .ok (deleteItems w i k)) ∧
       (¬ (lo ≤ i ∧ i + (k : Int) ≤ hi + 1) →
          applyOp w (.deleteRange i k) = .error .LIST_INDEX_OUT_OF_RANGE)) ∧
    (∀ (w w1 : Window) (pre post : List Operation) (op : Operation) (e : ErrorReason),
       applyOps w pre = (w1, none) → applyOp w1 op = .error e →
       applyOps w (pre ++ op :: post) = (w1, some e)) ∧
    (∀ (cfg : Config) (en : Engine) (w1 : Window) (ops : List Operation) (e : ErrorReason),
       en.lst.failState = false →
       bufferHas en.lst.buffered (en.lst.currentVersion + 1) = false →
       applyOps en.lst.window ops = (w1, some e) →
       processUpdate cfg en (.mutation en.listId ⟨some (en.lst.currentVersion + 1), ops⟩) =
         (false, { en with lst :=
           { en.lst with window := w1, errors := en.lst.errors ++ [e], failState := true } })) := by
  refine ⟨?_, ?_, ?_, ?_, ?_, ?_⟩
  · intro w lo hi i v hlo hhi
    constructor
    · intro hin
      simp only [applyOp, canInsertAt, hlo, hhi]
      rw [if_pos (by simp [hin.1, hin.2])]
    · intro hout
      simp only [applyOp, canInsertAt, hlo, hhi]
      rw [if_neg (by simpa using fun h1 h2 => hout ⟨h1, h2⟩)]
  · intro w lo hi i v hlo hhi
    constructor
    · intro hin
      constructor
      · simp only [applyOp, canUpdateAt, hlo, hhi]
        rw [if_pos (by simp [hin.1, hin.2])]
      · simp only [applyOp, canUpdateAt, hlo, hhi]
        rw [if_pos (by simp [hin.1, hin.2])]
    · intro hout
      constructor
      · simp only [applyOp, canUpdateAt, hlo, hhi]
        rw [if_neg (by simpa using fun h1 h2 => hout ⟨h1, h2⟩)]
      · simp only [applyOp, canUpdateAt, hlo, hhi]
        rw [if_neg (by simpa using fun h1 h2 => hout ⟨h1, h2⟩)]
  · intro w lo hi i vs hlo hhi
    constructor
    · intro hin
      simp only [applyOp, canInsertAt, hlo, hhi]
      rw [if_pos (by simp [hin.1, hin.2])]
    · intro hout
      simp only [applyOp, canInsertAt, hlo, hhi]
      rw [if_neg (by simpa using fun h1 h2 => hout ⟨h1, h2⟩)]
  · intro w lo hi i k hlo hhi
    constructor
    · intro hin
      simp only [applyOp, canDeleteRange, hlo, hhi]
      rw [if_pos (by simp [hin.1, hin.2])]
    · intro hout
      simp only [applyOp, canDeleteRange, hlo, hhi]
      rw [if_neg (by simpa using fun h1 h2 => hout ⟨h1, h2⟩)]
  · intro w w1 pre post op e hpre hop
    induction pre generalizing w with
    | nil =>
      simp only [applyOps] at hpre
      cases hpre
      simp [applyOps, hop]
    | cons p pre ih =>
      simp only [applyOps] at hpre ⊢
      rcases hw : applyOp w p with e2 | w2
      · rw [hw] at hpre; cases hpre
      · rw [hw] at hpre
        exact ih w2 hpre
  · intro cfg en w1 ops e hf hb hops
    rw [processUpdate_mutation, processCrud_abort hf rfl hb hops]

/-- C4 witness: the `BROKEN_CRUD_SERIES` scenario on the `RESTRICTED_DATA`
window — insert at 11 applies, the insert at 27 aborts the batch with
`LIST_INDEX_OUT_OF_RANGE`, and the replace/delete after it are never
attempted while the first insert stays in effect; plus the
`CrudMultiInsertAbove` and `CrudMultiDeleteMore` rejections: an InsertRange
at 10 above the `[-5, 4]` run and a DeleteRange of 3 on the singleton run are
out of range. -/
theorem claim4_witness :
    applyOps wRestricted [Operation.insert 11 111] =
      (insertItems wRestricted 11 [111], none) ∧
    applyOp (insertItems wRestricted 11 [111]) (.insert 27 27) =
      .error .LIST_INDEX_OUT_OF_RANGE ∧
    applyOps wRestricted
        ([Operation.insert 11 111] ++ Operation.insert 27 27 ::
          [Operation.replace 13 113, Operation.delete 12]) =
      (insertItems wRestricted 11 [111], some .LIST_INDEX_OUT_OF_RANGE) ∧
    applyOp wStart (.insertRange 10 [100, 101]) = .error .LIST_INDEX_OUT_OF_RANGE ∧
    applyOp wSingle (.deleteRange 0 3) = .error .LIST_INDEX_OUT_OF_RANGE ∧
    processUpdate defaultConfig enRestricted
        (.mutation enRestricted.listId ⟨some 1,
          [Operation.insert 11 111, Operation.insert 27 27,
           Operation.replace 13 113, Operation.delete 12]⟩) =
      (false, { enRestricted with lst :=
        { enRestricted.lst with
          window := insertItems wRestricted 11 [111],
          errors := enRestricted.lst.errors ++ [.LIST_INDEX_OUT_OF_RANGE],
          failState := true } }) := by
  have h := claim4_window_validation_and_abort
  have h1 : applyOps wRestricted [Operation.insert 11 111] =
      (insertItems wRestricted 11 [111], none) := by rfl
  have h2 : applyOp (insertItems wRestricted 11 [111]) (.insert 27 27) =
      .error .LIST_INDEX_OUT_OF_RANGE := by rfl
  have h3 := h.2.2.2.2.1 wRestricted (insertItems wRestricted 11 [111])
    [Operation.insert 11 111] [Operation.replace 13 113, Operation.delete 12]
    (Operation.insert 27 27) .LIST_INDEX_OUT_OF_RANGE h1 h2
  have h4 := (h.2.2.1 wStart (-5) 4 10 [100, 101] (by decide) (by decide)).2 (by decide)
  have h5 := (h.2.2.2.1 wSingle 0 0 0 3 (by decide) (by decide)).2 (by decide)
  refine ⟨h1, h2, h3, h4, h5, ?_⟩
  exact h.2.2.2.2.2 defaultConfig enRestricted (insertItems wRestricted 11 [111])
    [Operation.insert 11 111, Operation.insert 27 27,
     Operation.replace 13 113, Operation.delete 12]
    .LIST_INDEX_OUT_OF_RANGE rfl (by decide) (by simpa using h3)

/-! ### C10 — the persistent fail state -/

/-- C10: once a mutation batch has failed validation the list is in the fail
state: the failing call sets it, and from then on every mutation batch —
whatever its version or target indices — is rejected by `processUpdate` with
failure, exactly one `INTERNAL_ERROR` diagnostic is enqueued, and the window
(items and bounds), version and buffer are left unchanged. -/
theorem claim10_persistent_fail_state :
    ∀ (cfg : Config) (en : Engine) (b : Batch),
      (∀ (w1 : Window) (e : ErrorReason),
        en.lst.failState = false →
        bufferHas en.lst.buffered (en.lst.currentVersion + 1) = false →
        b.version = some (en.lst.currentVersion + 1) →
        applyOps en.lst.window b.ops = (w1, some e) →
        (processUpdate cfg en (.mutation en.listId b)).snd.lst.failState = true) ∧
      (en.lst.failState = true →
        processUpdate cfg en (.mutation en.listId b) =
          (false, { en with lst :=
            { en.lst with errors := en.lst.errors ++ [.INTERNAL_ERROR] } })) := by
  intro cfg en b
  constructor
  · intro w1 e hf hb hv hops
    rcases b with ⟨ver, ops⟩
    cases hv
    rw [processUpdate_mutation, processCrud_abort hf rfl hb hops]
  · intro h
    rw [processUpdate_mutation, processCrud_failed h]

/-- C10 witness: mirroring `CrudPayloadGap` — the gap insert at 17 into the
`RESTRICTED_DATA` window puts the list in the fail state, and the follow-up
batch with version 2 and the in-range index 10 is rejected with one
`INTERNAL_ERROR` and no state change. -/
theorem claim10_witness :
    (processUpdate defaultConfig enRestricted
        (.mutation enRestricted.listId ⟨some 1, [.insert 17 17]⟩)).snd.lst.failState = true ∧
    processUpdate defaultConfig enFailed
        (.mutation enFailed.listId ⟨some 2, [.insert 10 100]⟩) =
      (false, { enFailed with lst :=
        { enFailed.lst with errors := enFailed.lst.errors ++ [.INTERNAL_ERROR] } }) := by
  have h1 := (claim10_persistent_fail_state defaultConfig enRestricted
    ⟨some 1, [.insert 17 17]⟩).1 wRestricted .LIST_INDEX_OUT_OF_RANGE
    rfl (by decide) (by decide) (by rfl)
  have h2 := (claim10_persistent_fail_state defaultConfig enFailed
    ⟨some 2, [.insert 10 100]⟩).2 rfl
  exact ⟨h1, h2⟩

/-! ### C2 — contiguous buffered mutations drain in one call -/

theorem drain_step (n : Nat) (s : ListState) (o : List Operation) (u : Window)
    (hl : lookupBuf s.buffered (s.currentVersion + 1) = some o)
    (ha : applyOps s.window o = (u, none)) :
    drain (n + 1) s =
      drain n { s with window := u, currentVersion := s.currentVersion + 1,
                       buffered := removeBuf s.buffered (s.currentVersion + 1) } := by
  simp only [drain, hl, ha]

/-- C2: when batches with versions `c+3` and then `c+2` arrive on a list at
version `c`, each is buffered without being applied and the call fails; as
soon as the batch with version `c+1` arrives, it applies and the two buffered
batches — now version-contiguous — are automatically applied in ascending
version order within that same `processUpdate` call, `currentVersion`
advancing past all of them to `c+3` and the buffer emptying. -/
theorem claim2_out_of_order_drain :
    ∀ (cfg : Config) (en : Engine) (c : Int) (ops1 ops2 ops3 : List Operation)
      (w1 w2 w3 : Window),
      en.lst.failState = false →
      en.lst.buffered = [] →
      en.lst.currentVersion = c →
      2 ≤ cfg.listUpdateBufferSize →
      applyOps en.lst.window ops1 = (w1, none) →
      applyOps w1 ops2 = (w2, none) →
      applyOps w2 ops3 = (w3, none) →
      processUpdate cfg en (.mutation en.listId ⟨some (c + 3), ops3⟩) =
        (false, { en with lst := { en.lst with buffered := [(c + 3, ops3)] } }) ∧
      processUpdate cfg { en with lst := { en.lst with buffered := [(c + 3, ops3)] } }
          (.mutation en.listId ⟨some (c + 2), ops2⟩) =
        (false, { en with lst :=
          { en.lst with buffered := [(c + 2, ops2), (c + 3, ops3)] } }) ∧
      processUpdate cfg
          { en with lst := { en.lst with buffered := [(c + 2, ops2), (c + 3, ops3)] } }
          (.mutation en.listId ⟨some (c + 1), ops1⟩) =
        (true, { en with lst :=
          { en.lst with window := w3, currentVersion := c + 3, buffered := [] } }) := by
  intro cfg en c ops1 ops2 ops3 w1 w2 w3 hf hbuf hc hcap h1 h2 h3
  subst hc
  refine ⟨?_, ?_, ?_⟩
  · rw [processUpdate_mutation,
      processCrud_buffer hf (by omega) (by simp [bufferHas, hbuf]) (by simp [hbuf]; omega)]
    rw [hbuf]
    simp [insertSorted]
  · show processUpdate cfg
      { en with lst := { en.lst with buffered := [(en.lst.currentVersion + 3, ops3)] } }
      (.mutation ({ en with lst := { en.lst with
        buffered := [(en.lst.currentVersion + 3, ops3)] } } : Engine).listId _) = _
    rw [processUpdate_mutation,
      processCrud_buffer (s := { en.lst with buffered := [(en.lst.currentVersion + 3, ops3)] })
        hf (by show en.lst.currentVersion + 1 < en.lst.currentVersion + 2; omega)
        (by simp [bufferHas])
        (by show 1 < cfg.listUpdateBufferSize; omega)]
    have : insertSorted [(en.lst.currentVersion + 3, ops3)] (en.lst.currentVersion + 2) ops2 =
        [(en.lst.currentVersion + 2, ops2), (en.lst.currentVersion + 3, ops3)] := by
      simp only [insertSorted]
      rw [if_pos (by omega)]
    simp only [this]
  · show processUpdate cfg
      { en with lst := { en.lst with
        buffered := [(en.lst.currentVersion + 2, ops2), (en.lst.currentVersion + 3, ops3)] } }
      (.mutation ({ en with lst := { en.lst with
        buffered := [(en.lst.currentVersion + 2, ops2), (en.lst.currentVersion + 3, ops3)] } } :
          Engine).listId _) = _
    rw [processUpdate_mutation,
      processCrud_apply
        (s := { en.lst with
          buffered := [(en.lst.currentVersion + 2, ops2), (en.lst.currentVersion + 3, ops3)] })
        hf (by show _ = en.lst.currentVersion + 1; rfl)
        (by simp [bufferHas]) h1]
    have hrb1 : removeBuf
        [(en.lst.currentVersion + 2, ops2), (en.lst.currentVersion + 3, ops3)]
        (en.lst.currentVersion + 1 + 1) = [(en.lst.currentVersion + 3, ops3)] := by
      have hq : (en.lst.currentVersion + 2 : Int) = en.lst.currentVersion + 1 + 1 := by omega
      have hn : ¬ (en.lst.currentVersion + 3 : Int) = en.lst.currentVersion + 1 + 1 := by omega
      simp [removeBuf, hq, hn]
    have hrb2 : removeBuf [(en.lst.currentVersion + 3, ops3)]
        (en.lst.currentVersion + 1 + 1 + 1) = [] := by
      have hq : (en.lst.currentVersion + 3 : Int) = en.lst.currentVersion + 1 + 1 + 1 := by
        omega
      simp [removeBuf, hq]
    have hd : drain 2 (ListState.mk w1 (en.lst.currentVersion + 1)
        [(en.lst.currentVersion + 2, ops2), (en.lst.currentVersion + 3, ops3)]
        en.lst.failState en.lst.errors) =
        ListState.mk w3 (en.lst.currentVersion + 3) [] en.lst.failState en.lst.errors := by
      rw [show (2 : Nat) = 1 + 1 from rfl]
      rw [drain_step 1
        (ListState.mk w1 (en.lst.currentVersion + 1)
          [(en.lst.currentVersion + 2, ops2), (en.lst.currentVersion + 3, ops3)]
          en.lst.failState en.lst.errors) ops2 w2
        (by simp only [lookupBuf]; rw [if_pos (by omega)]) h2]
      show drain 1 (ListState.mk w2 (en.lst.currentVersion + 1 + 1)
        (removeBuf [(en.lst.currentVersion + 2, ops2), (en.lst.currentVersion + 3, ops3)]
          (en.lst.currentVersion + 1 + 1)) en.lst.failState en.lst.errors) = _
      rw [hrb1, show (1 : Nat) = 0 + 1 from rfl]
      rw [drain_step 0
        (ListState.mk w2 (en.lst.currentVersion + 1 + 1)
          [(en.lst.currentVersion + 3, ops3)] en.lst.failState en.lst.errors) ops3 w3
        (by simp only [lookupBuf]; rw [if_pos (by omega)]) h3]
      show drain 0 (ListState.mk w3 (en.lst.currentVersion + 1 + 1 + 1)
        (removeBuf [(en.lst.currentVersion + 3, ops3)] (en.lst.currentVersion + 1 + 1 + 1))
        en.lst.failState en.lst.errors) = _
      rw [hrb2]
      show ListState.mk w3 (en.lst.currentVersion + 1 + 1 + 1) [] en.lst.failState
        en.lst.errors = _
      congr 1
      omega
    show (true, { en with lst := drain 2 (ListState.mk w1 (en.lst.currentVersion + 1)
        [(en.lst.currentVersion + 2, ops2), (en.lst.currentVersion + 3, ops3)]
        en.lst.failState en.lst.errors) }) = _
    rw [hd]


/-- C2 witness: on the fresh `STARTING_BOUNDS_DATA` engine, versions 3 and 2
are buffered with failure, and the arrival of version 1 applies all three
batches in ascending order in that one call, leaving `currentVersion = 3`
and an empty buffer. -/
theorem claim2_witness :
    processUpdate defaultConfig enStart
        (.mutation enStart.listId ⟨some 3, [.delete 2]⟩) =
      (false, { enStart with lst :=
        { enStart.lst with buffered := [(3, [.delete 2])] } }) ∧
    processUpdate defaultConfig
        { enStart with lst := { enStart.lst with buffered := [(3, [.delete 2])] } }
        (.mutation enStart.listId ⟨some 2, [.insert 0 100]⟩) =
      (false, { enStart with lst :=
        { enStart.lst with buffered := [(2, [.insert 0 100]), (3, [.delete 2])] } }) ∧
    processUpdate defaultConfig
        { enStart with lst :=
          { enStart.lst with buffered := [(2, [.insert 0 100]), (3, [.delete 2])] } }
        (.mutation enStart.listId ⟨some 1, [.insert (-3) (-103)]⟩) =
      (true, { enStart with lst :=
        { enStart.lst with
          window := deleteItems (insertItems (insertItems wStart (-3) [-103]) 0 [100]) 2 1,
          currentVersion := 3, buffered := [] } }) := by
  have h := claim2_out_of_order_drain defaultConfig enStart 0
    [.insert (-3) (-103)] [.insert 0 100] [.delete 2]
    (insertItems wStart (-3) [-103])
    (insertItems (insertItems wStart (-3) [-103]) 0 [100])
    (deleteItems (insertItems (insertItems wStart (-3) [-103]) 0 [100]) 2 1)
    rfl rfl rfl (by decide) (by rfl) (by rfl) (by rfl)
  exact ⟨h.1, h.2.1, h.2.2⟩

/-! ### C5 — fetch retry exhaustion -/

theorem runFailedAttempts_gone (m tok : Nat) (acc : List FetchSignal) :
    runFailedAttempts m none tok acc = (none, tok, acc) := by
  cases m <;> rfl

theorem runFailedAttempts_closed (start : Int) (count : Nat) :
    ∀ (r : Nat) (ts : List Nat) (n tok : Nat) (acc : List FetchSignal), r + 1 ≤ n →
      runFailedAttempts n (some ⟨start, count, ts, r⟩) tok acc =
        (none, tok + r,
         acc ++ ((List.range r).map (fun j => .request start count (tok + j))) ++
           [.terminalFailure start count]) := by
  intro r
  induction r with
  | zero =>
    intro ts n tok acc hn
    match n, hn with
    | n + 1, _ =>
      simp only [runFailedAttempts, onFailedAttempt]
      rw [runFailedAttempts_gone]
      simp
  | succ r ih =>
    intro ts n tok acc hn
    match n, hn with
    | n + 1, hn =>
      simp only [runFailedAttempts, onFailedAttempt]
      rw [ih (tok :: ts) n (tok + 1) (acc ++ [FetchSignal.request start count tok]) (by omega)]
      have hmap : (List.range (r + 1)).map
          (fun j => FetchSignal.request start count (tok + j)) =
          FetchSignal.request start count tok ::
            (List.range r).map (fun j => FetchSignal.request start count (tok + 1 + j)) := by
        rw [List.range_succ_eq_map, List.map_cons, List.map_map]
        refine congrArg₂ _ (by simp) ?_
        apply List.map_congr_left
        intro j hj
        simp only [Function.comp_apply]
        refine congrArg _ (by omega)
      refine Prod.ext rfl (Prod.ext (by simp; omega) ?_)
      simp only [hmap]
      simp

/-- C5: for an outstanding fetch request armed with `fetchRetries` retries,
every failed attempt — a timeout expiry without a response or an empty
matching response — consumes one retry and re-requests the same range under a
fresh correlation token (each token distinct from all previously issued
ones); once the retries are exhausted, the request terminally fails exactly
once and no further fetch request is emitted for that range by later expiries
or responses. The second part ties an empty matching response at the engine
level to exactly one consumed retry and a fresh-token record. -/
theorem claim5_retry_exhaustion :
    (∀ (cfg : Config) (start : Int) (count : Nat) (t0 n : Nat),
       cfg.fetchRetries + 1 ≤ n →
       runFailedAttempts n (some ⟨start, count, [t0], cfg.fetchRetries⟩) (t0 + 1) [] =
         (none, t0 + 1 + cfg.fetchRetries,
          ((List.range cfg.fetchRetries).map
            (fun j => .request start count (t0 + 1 + j))) ++
            [.terminalFailure start count]) ∧
       ((List.range cfg.fetchRetries).map (fun j => t0 + 1 + j)).Pairwise (· ≠ ·) ∧
       (∀ t ∈ (List.range cfg.fetchRetries).map (fun j => t0 + 1 + j), t ≠ t0)) ∧
    (∀ (e : Engine) (r : LoadResponse) (f : FetchRecord) (rr : Nat),
       r.listId = e.listId →
       findFetch e.fetches r.correlationToken = some f →
       r.items = [] →
       f.retriesLeft = rr + 1 →
       processLoadResponse e r =
         (false,
          { pushErr e .INTERNAL_ERROR with
            fetches := { f with tokens := e.nextToken :: f.tokens, retriesLeft := rr } ::
              removeFetch e.fetches r.correlationToken,
            nextToken := e.nextToken + 1 })) := by
  constructor
  · intro cfg start count t0 n hn
    refine ⟨runFailedAttempts_closed start count cfg.fetchRetries [t0] n (t0 + 1) [] hn,
      ?_, ?_⟩
    · rw [List.pairwise_map]
      refine (List.pairwise_lt_range _).imp ?_
      intro a b h
      omega
    · intro t ht
      simp only [List.mem_map, List.mem_range] at ht
      obtain ⟨j, _, rfl⟩ := ht
      omega
  · intro e r f rr hl hff hemp hrr
    rcases f with ⟨fs, fc, fts, frl⟩
    simp only at hrr
    subst hrr
    simp only [processLoadResponse, if_pos hl, hff, hemp, List.isEmpty_nil, if_true,
      onFailedAttempt]

/-- C5 witness: the default configuration (2 retries) with initial token 101:
three failed attempts re-request the range `[15, 20)` twice under the fresh
tokens 102 and 103, then fail terminally once, and a fourth and fifth failure
emit nothing; and on the `SMALLER_DATA` engine an empty matching response
consumes one retry, re-arming the request with fresh token 102. -/
theorem claim5_witness :
    runFailedAttempts 5 (some ⟨15, 5, [101], defaultConfig.fetchRetries⟩) 102 [] =
      (none, 104,
       [.request 15 5 102, .request 15 5 103, .terminalFailure 15 5]) ∧
    processLoadResponse enSmall ⟨7, 101, 15, [], none, none⟩ =
      (false,
       { pushErr enSmall .INTERNAL_ERROR with
         fetches := [⟨15, 5, [102, 101], 1⟩],
         nextToken := 103 }) := by
  constructor
  · have h := (claim5_retry_exhaustion.1 defaultConfig 15 5 101 5 (by decide)).1
    exact h.trans (by rfl)
  · have h := claim5_retry_exhaustion.2 enSmall ⟨7, 101, 15, [], none, none⟩
      ⟨15, 5, [101], 2⟩ 1 rfl (by rfl) rfl rfl
    exact h.trans (by rfl)

/-! ### C6 — correlation-token and list-id matching of load responses -/

/-- The `CorrelationTokenSubstitute` response: a `listId` naming no known
list but carrying the outstanding correlation token 101. -/
def rSubstitute : LoadResponse := ⟨8, 101, 15, [15, 16, 17, 18, 19], none, none⟩

/-- C6 counterexample, mirroring the cited `CorrelationTokenSubstitute`
test: a load response whose `listId` matches no list but whose correlation
token matches the outstanding request is not rejected — `processUpdate`
returns success and the response's items are materialized (index 15 becomes
populated), so neither "returns failure" nor "leaves items unchanged" holds
for a `listId` mismatch when the token matches. -/
theorem claim6_counterexample :
    rSubstitute.listId ≠ enSmall.listId ∧
    (processUpdate defaultConfig enSmall (.load rSubstitute)).fst = true ∧
    itemAt (processUpdate defaultConfig enSmall (.load rSubstitute)).snd.lst.window 15 =
      some 15 ∧
    itemAt enSmall.lst.window 15 = none := by decide

/-- C6 (amended): a load response whose correlation token matches no
outstanding request (including one already resolved and retired) is rejected
— `processUpdate` returns failure, the window and the retry state are
unchanged, and one diagnostic is enqueued: `INTERNAL_ERROR` when the `listId`
matches, `INVALID_LIST_ID` when it does not. But when the `listId` mismatches
while the token does match an outstanding request, the token substitutes for
the list resolution: an `INVALID_LIST_ID` diagnostic is still enqueued, yet
the response is applied to the token's list and the call returns success. -/
theorem claim6_token_and_list_matching :
    ∀ (cfg : Config) (e : Engine) (r : LoadResponse),
      (r.listId = e.listId → findFetch e.fetches r.correlationToken = none →
        processUpdate cfg e (.load r) = (false, pushErr e .INTERNAL_ERROR) ∧
        (pushErr e .INTERNAL_ERROR).lst.window = e.lst.window ∧
        (pushErr e .INTERNAL_ERROR).fetches = e.fetches ∧
        (pushErr e .INTERNAL_ERROR).lst.errors = e.lst.errors ++ [.INTERNAL_ERROR]) ∧
      (¬ r.listId = e.listId → findFetch e.fetches r.correlationToken = none →
        processUpdate cfg e (.load r) = (false, pushErr e .INVALID_LIST_ID) ∧
        (pushErr e .INVALID_LIST_ID).lst.window = e.lst.window ∧
        (pushErr e .INVALID_LIST_ID).fetches = e.fetches ∧
        (pushErr e .INVALID_LIST_ID).lst.errors = e.lst.errors ++ [.INVALID_LIST_ID]) ∧
      (∀ f : FetchRecord, ¬ r.listId = e.listId →
        findFetch e.fetches r.correlationToken = some f →
        processUpdate cfg e (.load r) = (true, fulfill (pushErr e .INVALID_LIST_ID) r) ∧
        (fulfill (pushErr e .INVALID_LIST_ID) r).lst.errors =
          e.lst.errors ++ [.INVALID_LIST_ID] ++ (applyLoadResponse e.lst.window r).snd ∧
        (fulfill (pushErr e .INVALID_LIST_ID) r).lst.window =
          (applyLoadResponse e.lst.window r).fst) := by
  intro cfg e r
  refine ⟨?_, ?_, ?_⟩
  · intro h1 h2
    refine ⟨?_, rfl, rfl, rfl⟩
    simp only [processUpdate, processLoadResponse, if_pos h1, h2]
  · intro h1 h2
    refine ⟨?_, rfl, rfl, rfl⟩
    simp only [processUpdate, processLoadResponse, if_neg h1, h2]
  · intro f h1 h2
    refine ⟨?_, rfl, rfl⟩
    simp only [processUpdate, processLoadResponse, if_neg h1, h2]

/-- C6 witness: on the `SMALLER_DATA` engine — the unknown token 76 with a
matching list id is rejected with `INTERNAL_ERROR`; the unknown token 76
with a wrong list id is rejected with `INVALID_LIST_ID`; and the wrong list
id with the matching token 101 succeeds via the token's list. -/
theorem claim6_witness :
    processUpdate defaultConfig enSmall (.load ⟨7, 76, 15, [15, 16], none, none⟩) =
      (false, pushErr enSmall .INTERNAL_ERROR) ∧
    processUpdate defaultConfig enSmall (.load ⟨8, 76, 15, [15, 16], none, none⟩) =
      (false, pushErr enSmall .INVALID_LIST_ID) ∧
    processUpdate defaultConfig enSmall (.load rSubstitute) =
      (true, fulfill (pushErr enSmall .INVALID_LIST_ID) rSubstitute) := by
  have h1 := (claim6_token_and_list_matching defaultConfig enSmall
    ⟨7, 76, 15, [15, 16], none, none⟩).1 rfl (by rfl)
  have h2 := (claim6_token_and_list_matching defaultConfig enSmall
    ⟨8, 76, 15, [15, 16], none, none⟩).2.1 (by decide) (by rfl)
  have h3 := (claim6_token_and_list_matching defaultConfig enSmall rSubstitute).2.2
    ⟨15, 5, [101], 2⟩ (by decide) (by rfl)
  exact ⟨h1.1, h2.1, h3.1⟩

/-! ### Load-response lemmas -/

theorem loadPairs_minB (ps : List (Int × Item)) :
    ∀ w : Window, (loadPairs w ps).fst.minB = w.minB := by
  induction ps with
  | nil => intro w; rfl
  | cons p rest ih =>
    intro w
    rcases p with ⟨i, v⟩
    simp only [loadPairs]
    by_cases h : inBounds w.minB w.maxB i
    · rw [if_pos h]
      exact ih _
    · rw [if_neg h]
      exact ih _

theorem loadPairs_maxB (ps : List (Int × Item)) :
    ∀ w : Window, (loadPairs w ps).fst.maxB = w.maxB := by
  induction ps with
  | nil => intro w; rfl
  | cons p rest ih =>
    intro w
    rcases p with ⟨i, v⟩
    simp only [loadPairs]
    by_cases h : inBounds w.minB w.maxB i
    · rw [if_pos h]
      exact ih _
    · rw [if_neg h]
      exact ih _

theorem loadPairs_snd (ps : List (Int × Item)) :
    ∀ w : Window,
      (loadPairs w ps).snd = ps.any (fun p => !(inBounds w.minB w.maxB p.fst)) := by
  induction ps with
  | nil => intro w; rfl
  | cons p rest ih =>
    intro w
    rcases p with ⟨i, v⟩
    simp only [loadPairs, List.any_cons]
    by_cases h : inBounds w.minB w.maxB i
    · rw [if_pos h, ih]
      simp [h]
    · rw [if_neg h]
      simp [h]

theorem lookup_putItem (i : Int) (v : Item) (j : Int) :
    ∀ l : List (Int × Item),
      lookupIdx (putItem l i v) j = if i = j then some v else lookupIdx l j := by
  intro l
  induction l with
  | nil => rfl
  | cons p rest ih =>
    simp only [putItem]
    by_cases hpi : p.fst = i
    · rw [if_pos hpi]
      simp only [lookupIdx]
      by_cases hij : i = j
      · rw [if_pos hij, if_pos hij]
      · rw [if_neg hij, if_neg hij, if_neg (by rw [hpi]; exact hij)]
    · rw [if_neg hpi]
      simp only [lookupIdx, ih]
      by_cases hpj : p.fst = j
      · rw [if_pos hpj, if_neg (by intro hij; exact hpi (hpj.trans hij.symm ▸ rfl))]
        rw [if_pos hpj]
      · rw [if_neg hpj, if_neg hpj]

theorem lookupIdx_seqFrom_none (i : Int) (vs : List Item) (j : Int)
    (hj : j < i ∨ i + (vs.length : Int) ≤ j) :
    lookupIdx (seqFrom i vs) j = none := by
  have := lookupIdx_seqFrom_append_out i vs [] j hj
  simpa using this

theorem lookupIdx_seqFrom_some_range (vs : List Item) :
    ∀ (i j : Int) (v : Item), lookupIdx (seqFrom i vs) j = some v →
      i ≤ j ∧ j < i + (vs.length : Int) := by
  induction vs with
  | nil => intro i j v h; cases h
  | cons a vs ih =>
    intro i j v h
    simp only [seqFrom, lookupIdx] at h
    by_cases hij : i = j
    · subst hij
      simp only [List.length_cons]
      push_cast
      omega
    · rw [if_neg hij] at h
      have := ih (i + 1) j v h
      simp only [List.length_cons]
      push_cast at this ⊢
      omega

theorem lookupIdx_some_mem (j : Int) (v : Item) :
    ∀ l : List (Int × Item), lookupIdx l j = some v → (j, v) ∈ l := by
  intro l
  induction l with
  | nil => intro h; cases h
  | cons p rest ih =>
    intro h
    simp only [lookupIdx] at h
    by_cases hpj : p.fst = j
    · rw [if_pos hpj] at h
      have hv : p.snd = v := by injection h
      have hpv : (j, v) = p := by
        rcases p with ⟨a, b⟩
        simp only at hpj hv
        rw [hpj, hv]
      rw [hpv]
      exact List.mem_cons_self _ _
    · rw [if_neg hpj] at h
      exact List.mem_cons_of_mem _ (ih h)

theorem itemAt_evict_out {w : Window} {j : Int}
    (h : inBounds w.minB w.maxB j = false) : itemAt (evict w) j = none := by
  simp only [evict, itemAt]
  induction w.items with
  | nil => rfl
  | cons p rest ih =>
    rw [List.filter_cons]
    by_cases hp : inBounds w.minB w.maxB p.fst
    · rw [if_pos (by simpa using hp)]
      simp only [lookupIdx]
      rw [if_neg (by intro he; rw [he] at hp; rw [hp] at h; cases h)]
      exact ih
    · rw [if_neg (by simpa using hp)]
      exact ih

theorem itemAt_loadPairs_chunk (vs : List Item) :
    ∀ (w : Window) (s j : Int),
      itemAt (loadPairs w (seqFrom s vs)).fst j =
        match lookupIdx (seqFrom s vs) j with
        | some v => if inBounds w.minB w.maxB j then some v else itemAt w j
        | none => itemAt w j := by
  induction vs with
  | nil => intro w s j; rfl
  | cons v vs ih =>
    intro w s j
    simp only [seqFrom, loadPairs, lookupIdx]
    by_cases hin : inBounds w.minB w.maxB s
    · rw [if_pos hin]
      rw [ih { w with items := putItem w.items s v } (s + 1) j]
      by_cases hsj : s = j
      · subst hsj
        rw [lookupIdx_seqFrom_none (s + 1) vs s (Or.inl (by omega)), if_pos rfl]
        show itemAt { w with items := putItem w.items s v } s =
          if inBounds w.minB w.maxB s then some v else itemAt w s
        rw [if_pos hin]
        simp only [itemAt]
        rw [lookup_putItem]
        rw [if_pos rfl]
      · rw [if_neg hsj]
        have hput : itemAt { w with items := putItem w.items s v } j = itemAt w j := by
          simp only [itemAt]
          rw [lookup_putItem, if_neg hsj]
        cases hlk : lookupIdx (seqFrom (s + 1) vs) j with
        | none => simpa [hlk] using hput
        | some u => simp [hlk, hput]
    · rw [if_neg hin]
      rw [ih w (s + 1) j]
      by_cases hsj : s = j
      · subst hsj
        rw [lookupIdx_seqFrom_none (s + 1) vs s (Or.inl (by omega)), if_pos rfl]
        show itemAt w s = if inBounds w.minB w.maxB s then some v else itemAt w s
        rw [if_neg hin]
      · rw [if_neg hsj]

/-! ### C7 — bound shrinks in load responses -/

/-- The `SMALLER_DATA_BACK` engine: bounds `[5, 15)`, items `10 … 14`, one
outstanding fetch for `[5, 10)` under token 101. -/
def enBack : Engine :=
  ⟨7, ⟨⟨some 5, some 15, seqFrom 10 [10, 11, 12, 13, 14]⟩, 0, [], false, []⟩,
   [⟨5, 5, [101], 2⟩], 102⟩

/-- A matching response shrinking both bounds (`[0,10)` to `[3,7)`) past the
materialized items at indices 1 and 8, its own item (index 4) inside the new
bounds. -/
def rShrinkBoth : LoadResponse := ⟨3, 55, 4, [40], some 3, some 7⟩

/-- C7 counterexample: a matching load response that shrinks *both* bounds
past materialized items (minimum 0 → 3 past the item at 1, maximum 10 → 7
past the item at 8) is accepted but enqueues exactly ONE diagnostic, not the
claimed one per shrunk bound (two): the diagnostic is per bounds-change
event. (The cited `BoundsShrinkFull` test's two diagnostics come from the
change plus the response's own items falling outside the new bounds, as the
amended claim states.) -/
theorem claim7_counterexample :
    wTwo.minB = some 0 ∧ rShrinkBoth.minSupplied = some 3 ∧ itemAt wTwo 1 = some 10 ∧
    wTwo.maxB = some 10 ∧ rShrinkBoth.maxSupplied = some 7 ∧ itemAt wTwo 8 = some 80 ∧
    (processUpdate defaultConfig enTwo (.load rShrinkBoth)).fst = true ∧
    (processUpdate defaultConfig enTwo (.load rShrinkBoth)).snd.lst.errors =
      [.INTERNAL_ERROR] := by decide

/-- C7 (amended): a matching load response whose supplied bounds shrink the
window past materialized items is accepted: `processUpdate` returns success,
the shrunken bounds are retained, every item outside the new bounds is
evicted, and one `INTERNAL_ERROR` diagnostic is enqueued for the bounds
change as a whole, plus a second one exactly when the response's own items
fall outside the new bounds — not one per shrunk bound. -/
theorem claim7_shrink_accepted :
    ∀ (cfg : Config) (e : Engine) (r : LoadResponse) (f : FetchRecord),
      r.listId = e.listId →
      findFetch e.fetches r.correlationToken = some f →
      r.items ≠ [] →
      boundsChanged e.lst.window r = true →
      (processUpdate cfg e (.load r)).fst = true ∧
      (processUpdate cfg e (.load r)).snd.lst.window.minB =
        newBound e.lst.window.minB r.minSupplied ∧
      (processUpdate cfg e (.load r)).snd.lst.window.maxB =
        newBound e.lst.window.maxB r.maxSupplied ∧
      (∀ j : Int,
        inBounds (newBound e.lst.window.minB r.minSupplied)
          (newBound e.lst.window.maxB r.maxSupplied) j = false →
        itemAt (processUpdate cfg e (.load r)).snd.lst.window j = none) ∧
      (processUpdate cfg e (.load r)).snd.lst.errors =
        e.lst.errors ++ [.INTERNAL_ERROR] ++
          (if (seqFrom r.startIndex r.items).any
              (fun p => !(inBounds (newBound e.lst.window.minB r.minSupplied)
                (newBound e.lst.window.maxB r.maxSupplied) p.fst))
           then [.INTERNAL_ERROR] else []) := by
  intro cfg e r f hl hff hne hch
  have hie : r.items.isEmpty = false := by
    cases hr : r.items with
    | nil => exact absurd hr hne
    | cons a l => rfl
  have hup : processUpdate cfg e (.load r) = (true, fulfill e r) := by
    simp only [processUpdate, processLoadResponse, if_pos hl, hff, hie]
    rfl
  rw [hup]
  have halr : applyLoadResponse e.lst.window r =
      ((loadPairs (evict (reconciledWindow e.lst.window r))
         (seqFrom r.startIndex r.items)).fst,
       [ErrorReason.INTERNAL_ERROR] ++
         (if (loadPairs (evict (reconciledWindow e.lst.window r))
              (seqFrom r.startIndex r.items)).snd
          then [.INTERNAL_ERROR] else [])) := by
    simp only [applyLoadResponse, hch, if_true]
  refine ⟨rfl, ?_, ?_, ?_, ?_⟩
  · show (fulfill e r).lst.window.minB = _
    simp only [fulfill, halr]
    exact (loadPairs_minB _ _).trans rfl
  · show (fulfill e r).lst.window.maxB = _
    simp only [fulfill, halr]
    exact (loadPairs_maxB _ _).trans rfl
  · intro j hj
    have hj' : inBounds (evict (reconciledWindow e.lst.window r)).minB
        (evict (reconciledWindow e.lst.window r)).maxB j = false := hj
    have hev : itemAt (evict (reconciledWindow e.lst.window r)) j = none :=
      itemAt_evict_out hj'
    show itemAt (fulfill e r).lst.window j = none
    simp only [fulfill, halr]
    rw [itemAt_loadPairs_chunk]
    cases hlk : lookupIdx (seqFrom r.startIndex r.items) j with
    | none => exact hev
    | some u => simp [hj', hev]
  · show (fulfill e r).lst.errors = _
    simp only [fulfill, halr]
    rw [loadPairs_snd, List.append_assoc]
    rfl

/-- C7 witness, mirroring `BoundsShrinkTop`: the matching response lowering
the upper bound from 15 to 13 is accepted, the bound 13 is retained, the
items at 13 and 14 are evicted, and exactly one `INTERNAL_ERROR` is
enqueued. -/
theorem claim7_witness :
    (processUpdate defaultConfig enBack
      (.load ⟨7, 101, 5, [5, 6, 7, 8, 9], none, some 13⟩)).fst = true ∧
    (processUpdate defaultConfig enBack
      (.load ⟨7, 101, 5, [5, 6, 7, 8, 9], none, some 13⟩)).snd.lst.window.maxB = some 13 ∧
    itemAt (processUpdate defaultConfig enBack
      (.load ⟨7, 101, 5, [5, 6, 7, 8, 9], none, some 13⟩)).snd.lst.window 14 = none ∧
    (processUpdate defaultConfig enBack
      (.load ⟨7, 101, 5, [5, 6, 7, 8, 9], none, some 13⟩)).snd.lst.errors =
      [.INTERNAL_ERROR] := by
  have h := claim7_shrink_accepted defaultConfig enBack
    ⟨7, 101, 5, [5, 6, 7, 8, 9], none, some 13⟩ ⟨5, 5, [101], 2⟩
    rfl (by rfl) (by decide) (by decide)
  refine ⟨h.1, ?_, ?_, ?_⟩
  · exact h.2.2.1
  · exact h.2.2.2.1 14 (by decide)
  · exact h.2.2.2.2.trans (by decide)

/-! ### C8 — bound expansions in load responses -/

/-- The `BoundsExpandBottom` response: matching token, items `15 … 19`,
lowering `minimumInclusiveIndex` from 10 to 5 (a pure expansion). -/
def rExpandBottom : LoadResponse := ⟨7, 101, 15, [15, 16, 17, 18, 19], some 5, none⟩

/-- C8 counterexample, mirroring the cited `BoundsExpandBottom` test: a
matching load response that only *expands* the window (minimum 10 → 5, the
maximum untouched) is accepted — but an `INTERNAL_ERROR` diagnostic IS
enqueued (the engine reports every runtime bounds change), contradicting the
claim that, in contrast to a shrink, no diagnostic is raised. -/
theorem claim8_counterexample :
    enSmall.lst.window.minB = some 10 ∧ rExpandBottom.minSupplied = some 5 ∧
    rExpandBottom.maxSupplied = none ∧ enSmall.lst.errors = [] ∧
    (processUpdate defaultConfig enSmall (.load rExpandBottom)).fst = true ∧
    (processUpdate defaultConfig enSmall (.load rExpandBottom)).snd.lst.errors =
      [.INTERNAL_ERROR] := by decide

/-- C8 (amended): a matching load response whose supplied bounds only expand
the current window is accepted: `processUpdate` returns success, the expanded
bounds are retained, its items are materialized (item indices inside the new
bounds, nothing previously materialized is evicted) — but, exactly as for a
shrink, one `INTERNAL_ERROR` diagnostic is enqueued for the bounds change;
the original claim's "no diagnostic is raised" does not hold. -/
theorem claim8_expand_accepted :
    ∀ (cfg : Config) (e : Engine) (r : LoadResponse) (f : FetchRecord),
      r.listId = e.listId →
      findFetch e.fetches r.correlationToken = some f →
      r.items ≠ [] →
      boundsChanged e.lst.window r = true →
      (∀ j : Int, geMin e.lst.window.minB j = true →
        geMin (newBound e.lst.window.minB r.minSupplied) j = true) →
      (∀ j : Int, ltMax e.lst.window.maxB j = true →
        ltMax (newBound e.lst.window.maxB r.maxSupplied) j = true) →
      (∀ p ∈ e.lst.window.items,
        inBounds e.lst.window.minB e.lst.window.maxB p.fst = true) →
      (∀ p ∈ seqFrom r.startIndex r.items,
        inBounds (newBound e.lst.window.minB r.minSupplied)
          (newBound e.lst.window.maxB r.maxSupplied) p.fst = true) →
      (processUpdate cfg e (.load r)).fst = true ∧
      (processUpdate cfg e (.load r)).snd.lst.window.minB =
        newBound e.lst.window.minB r.minSupplied ∧
      (processUpdate cfg e (.load r)).snd.lst.window.maxB =
        newBound e.lst.window.maxB r.maxSupplied ∧
      (∀ j : Int,
        itemAt (processUpdate cfg e (.load r)).snd.lst.window j =
          match lookupIdx (seqFrom r.startIndex r.items) j with
          | some v => some v
          | none => itemAt e.lst.window j) ∧
      (processUpdate cfg e (.load r)).snd.lst.errors =
        e.lst.errors ++ [.INTERNAL_ERROR] := by
  intro cfg e r f hl hff hne hch hmin hmax wf hitems
  have hie : r.items.isEmpty = false := by
    cases hr : r.items with
    | nil => exact absurd hr hne
    | cons a l => rfl
  have hup : processUpdate cfg e (.load r) = (true, fulfill e r) := by
    simp only [processUpdate, processLoadResponse, if_pos hl, hff, hie]
    rfl
  rw [hup]
  have halr : applyLoadResponse e.lst.window r =
      ((loadPairs (evict (reconciledWindow e.lst.window r))
         (seqFrom r.startIndex r.items)).fst,
       [ErrorReason.INTERNAL_ERROR] ++
         (if (loadPairs (evict (reconciledWindow e.lst.window r))
              (seqFrom r.startIndex r.items)).snd
          then [.INTERNAL_ERROR] else [])) := by
    simp only [applyLoadResponse, hch, if_true]
  have hkeep : ∀ p ∈ (reconciledWindow e.lst.window r).items,
      inBounds (reconciledWindow e.lst.window r).minB
        (reconciledWindow e.lst.window r).maxB p.fst = true := by
    intro p hp
    have hw := wf p hp
    simp only [inBounds, Bool.and_eq_true] at hw ⊢
    exact ⟨hmin _ hw.1, hmax _ hw.2⟩
  have hevit : (evict (reconciledWindow e.lst.window r)).items = e.lst.window.items := by
    simp only [evict]
    exact List.filter_eq_self.mpr (fun p hp => hkeep p hp)
  have hevat : ∀ j : Int,
      itemAt (evict (reconciledWindow e.lst.window r)) j = itemAt e.lst.window j := by
    intro j
    show lookupIdx (evict (reconciledWindow e.lst.window r)).items j = _
    rw [hevit]
    rfl
  have hsnd : (loadPairs (evict (reconciledWindow e.lst.window r))
      (seqFrom r.startIndex r.items)).snd = false := by
    rw [loadPairs_snd]
    rw [List.any_eq_false]
    intro p hp
    have := hitems p hp
    show ¬ (!(inBounds (evict (reconciledWindow e.lst.window r)).minB
      (evict (reconciledWindow e.lst.window r)).maxB p.fst)) = true
    have hb : inBounds (evict (reconciledWindow e.lst.window r)).minB
        (evict (reconciledWindow e.lst.window r)).maxB p.fst = true := this
    simp [hb]
  refine ⟨rfl, ?_, ?_, ?_, ?_⟩
  · show (fulfill e r).lst.window.minB = _
    simp only [fulfill, halr]
    exact (loadPairs_minB _ _).trans rfl
  · show (fulfill e r).lst.window.maxB = _
    simp only [fulfill, halr]
    exact (loadPairs_maxB _ _).trans rfl
  · intro j
    show itemAt (fulfill e r).lst.window j = _
    simp only [fulfill, halr]
    rw [itemAt_loadPairs_chunk]
    cases hlk : lookupIdx (seqFrom r.startIndex r.items) j with
    | none => exact hevat j
    | some u =>
      have hmem := lookupIdx_some_mem j u _ hlk
      have hb : inBounds (evict (reconciledWindow e.lst.window r)).minB
          (evict (reconciledWindow e.lst.window r)).maxB j = true := by
        have := hitems (j, u) hmem
        exact this
      simp [hb]
  · show (fulfill e r).lst.errors = _
    simp only [fulfill, halr, hsnd]
    simp

/-- C8 witness: the `BoundsExpandBottom` response on the `SMALLER_DATA`
engine — the expansion is accepted, the bounds become `[5, 20)`, item 15 is
materialized, item 10 is retained, and exactly one `INTERNAL_ERROR` is
enqueued. -/
theorem claim8_witness :
    (processUpdate defaultConfig enSmall (.load rExpandBottom)).fst = true ∧
    (processUpdate defaultConfig enSmall (.load rExpandBottom)).snd.lst.window.minB =
      some 5 ∧
    (processUpdate defaultConfig enSmall (.load rExpandBottom)).snd.lst.window.maxB =
      some 20 ∧
    itemAt (processUpdate defaultConfig enSmall (.load rExpandBottom)).snd.lst.window 15 =
      some 15 ∧
    itemAt (processUpdate defaultConfig enSmall (.load rExpandBottom)).snd.lst.window 10 =
      some 10 ∧
    (processUpdate defaultConfig enSmall (.load rExpandBottom)).snd.lst.errors =
      [.INTERNAL_ERROR] := by
  have h := claim8_expand_accepted defaultConfig enSmall rExpandBottom ⟨15, 5, [101], 2⟩
    rfl (by rfl) (by decide) (by decide)
    (by intro j hj
        have hj' : decide ((10 : Int) ≤ j) = true := hj
        show decide ((5 : Int) ≤ j) = true
        simp only [decide_eq_true_eq] at hj' ⊢
        omega)
    (by intro j hj; exact hj)
    (by decide) (by decide)
  refine ⟨h.1, h.2.1, h.2.2.1, ?_, ?_, ?_⟩
  · exact (h.2.2.2.1 15).trans (by decide)
  · exact (h.2.2.2.1 10).trans (by decide)
  · exact h.2.2.2.2.trans (by decide)

/-! ### C9 — order independence of disjoint load-response chunks -/

/-- Apply one load-response chunk (start index and items) to the window:
the item path of `applyLoadResponse` for a response with no supplied
bounds. -/
def loadChunk (w : Window) (c : Int × List Item) : Window :=
  (loadPairs w (seqFrom c.fst c.snd)).fst

/-- Apply the chunks in arrival order. -/
def loadChunks (w : Window) (cs : List (Int × List Item)) : Window :=
  cs.foldl loadChunk w

/-- Two chunks cover disjoint index ranges. -/
def disjointChunks (c1 c2 : Int × List Item) : Prop :=
  c1.fst + (c1.snd.length : Int) ≤ c2.fst ∨ c2.fst + (c2.snd.length : Int) ≤ c1.fst

theorem disjointChunks_symm : Symmetric disjointChunks := by
  intro a b h
  exact h.symm

theorem loadChunk_minB (w : Window) (c : Int × List Item) :
    (loadChunk w c).minB = w.minB :=
  loadPairs_minB _ _

theorem loadChunk_maxB (w : Window) (c : Int × List Item) :
    (loadChunk w c).maxB = w.maxB :=
  loadPairs_maxB _ _

theorem loadChunk_comm {c1 c2 : Int × List Item} (h : disjointChunks c1 c2)
    (w : Window) (j : Int) :
    itemAt (loadChunk (loadChunk w c1) c2) j =
      itemAt (loadChunk (loadChunk w c2) c1) j := by
  rcases c1 with ⟨s1, vs1⟩
  rcases c2 with ⟨s2, vs2⟩
  simp only [loadChunk]
  rw [itemAt_loadPairs_chunk, itemAt_loadPairs_chunk, itemAt_loadPairs_chunk,
    itemAt_loadPairs_chunk]
  rw [loadPairs_minB, loadPairs_maxB, loadPairs_minB, loadPairs_maxB]
  cases h1 : lookupIdx (seqFrom s1 vs1) j with
  | some u1 =>
    cases h2 : lookupIdx (seqFrom s2 vs2) j with
    | some u2 =>
      exfalso
      have r1 := lookupIdx_seqFrom_some_range vs1 s1 j u1 h1
      have r2 := lookupIdx_seqFrom_some_range vs2 s2 j u2 h2
      rcases h with h | h <;> simp only at h <;> omega
    | none => rfl
  | none =>
    cases h2 : lookupIdx (seqFrom s2 vs2) j with
    | some u2 => rfl
    | none => rfl

theorem loadChunks_congr (cs : List (Int × List Item)) :
    ∀ (w1 w2 : Window), w1.minB = w2.minB → w1.maxB = w2.maxB →
      (∀ j : Int, itemAt w1 j = itemAt w2 j) →
      ∀ j : Int, itemAt (loadChunks w1 cs) j = itemAt (loadChunks w2 cs) j := by
  induction cs with
  | nil => intro w1 w2 _ _ hit j; exact hit j
  | cons c cs ih =>
    intro w1 w2 hmin hmax hit j
    show itemAt (loadChunks (loadChunk w1 c) cs) j =
      itemAt (loadChunks (loadChunk w2 c) cs) j
    apply ih
    · rw [loadChunk_minB, loadChunk_minB, hmin]
    · rw [loadChunk_maxB, loadChunk_maxB, hmax]
    · intro i
      rcases c with ⟨s, vs⟩
      simp only [loadChunk]
      rw [itemAt_loadPairs_chunk, itemAt_loadPairs_chunk]
      cases lookupIdx (seqFrom s vs) i with
      | some v =>
        rw [hmin, hmax]
        exact if_congr Iff.rfl rfl (hit i)
      | none => exact hit i

theorem loadChunks_perm :
    ∀ {cs1 cs2 : List (Int × List Item)}, cs1.Perm cs2 →
      cs1.Pairwise disjointChunks →
      ∀ (w : Window) (j : Int),
        itemAt (loadChunks w cs1) j = itemAt (loadChunks w cs2) j := by
  intro cs1 cs2 hp
  induction hp with
  | nil => intro _ w j; rfl
  | cons x p ih =>
    intro hpw w j
    show itemAt (loadChunks (loadChunk w x) _) j = itemAt (loadChunks (loadChunk w x) _) j
    exact ih (List.pairwise_cons.mp hpw).2 (loadChunk w x) j
  | swap x y l =>
    intro hpw w j
    have hxy : disjointChunks y x :=
      (List.pairwise_cons.mp hpw).1 x (List.mem_cons_self _ _)
    show itemAt (loadChunks (loadChunk (loadChunk w y) x) l) j =
      itemAt (loadChunks (loadChunk (loadChunk w x) y) l) j
    apply loadChunks_congr
    · rw [loadChunk_minB, loadChunk_minB, loadChunk_minB, loadChunk_minB]
    · rw [loadChunk_maxB, loadChunk_maxB, loadChunk_maxB, loadChunk_maxB]
    · intro i
      exact loadChunk_comm hxy w i
  | trans p1 p2 ih1 ih2 =>
    intro hpw w j
    have hpw2 := (p1.pairwise_iff (fun h => disjointChunks_symm h)).mp hpw
    exact (ih1 hpw w j).trans (ih2 hpw2 w j)

/-- C9: a matching load response carrying no bounds updates the window
exactly by its chunk of items, and for every set of pairwise-disjoint chunks
the final materialized mapping from index to item after processing all of
them is the same for every arrival order. -/
theorem claim9_order_independence :
    (∀ (cfg : Config) (e : Engine) (r : LoadResponse) (f : FetchRecord),
       r.listId = e.listId →
       findFetch e.fetches r.correlationToken = some f →
       r.items ≠ [] → r.minSupplied = none → r.maxSupplied = none →
       (processUpdate cfg e (.load r)).snd.lst.window =
         loadChunk e.lst.window (r.startIndex, r.items)) ∧
    (∀ (cs1 cs2 : List (Int × List Item)), cs1.Perm cs2 →
       cs1.Pairwise disjointChunks →
       ∀ (w : Window) (j : Int),
         itemAt (loadChunks w cs1) j = itemAt (loadChunks w cs2) j) := by
  constructor
  · intro cfg e r f hl hff hne hnmin hnmax
    have hie : r.items.isEmpty = false := by
      cases hr : r.items with
      | nil => exact absurd hr hne
      | cons a l => rfl
    have hup : processUpdate cfg e (.load r) = (true, fulfill e r) := by
      simp only [processUpdate, processLoadResponse, if_pos hl, hff, hie]
      rfl
    rw [hup]
    have hch : boundsChanged e.lst.window r = false := by
      simp [boundsChanged, hnmin, hnmax, newBound]
    show (fulfill e r).lst.window = _
    simp only [fulfill, applyLoadResponse, hch]
    rfl
  · intro cs1 cs2 hp hpw w j
    exact loadChunks_perm hp hpw w j

/-- C9 witness: the two disjoint chunks `[15, 17)` and `[5, 7)` of the
`Basic` scenario arrive in either order with the same materialized result,
and a matching no-bounds response applies exactly its chunk. -/
theorem claim9_witness :
    ([((15 : Int), [(150 : Int), 160]), (5, [50, 60])]).Perm
      [((5 : Int), [(50 : Int), 60]), (15, [150, 160])] ∧
    itemAt (loadChunks enSmall.lst.window [(15, [150, 160]), (5, [50, 60])]) 15 =
      itemAt (loadChunks enSmall.lst.window [(5, [50, 60]), (15, [150, 160])]) 15 ∧
    itemAt (loadChunks enSmall.lst.window [(15, [150, 160]), (5, [50, 60])]) 5 =
      itemAt (loadChunks enSmall.lst.window [(5, [50, 60]), (15, [150, 160])]) 5 ∧
    (processUpdate defaultConfig enSmall
      (.load ⟨7, 101, 15, [150, 160], none, none⟩)).snd.lst.window =
      loadChunk enSmall.lst.window (15, [150, 160]) := by
  have hperm : ([((15 : Int), [(150 : Int), 160]), (5, [50, 60])]).Perm
      [((5 : Int), [(50 : Int), 60]), (15, [150, 160])] := List.Perm.swap _ _ _
  have hdisj : List.Pairwise disjointChunks
      [((15 : Int), [(150 : Int), 160]), (5, [50, 60])] := by
    refine List.Pairwise.cons ?_ (List.pairwise_singleton _ _)
    intro c hc
    simp only [List.mem_singleton] at hc
    subst hc
    right
    decide
  have h := claim9_order_independence
  refine ⟨hperm, ?_, ?_, ?_⟩
  · exact h.2 _ _ hperm hdisj enSmall.lst.window 15
  · exact h.2 _ _ hperm hdisj enSmall.lst.window 5
  · exact h.1 defaultConfig enSmall ⟨7, 101, 15, [150, 160], none, none⟩
      ⟨15, 5, [101], 2⟩ rfl (by rfl) (by decide) rfl rfl

end DynIdx
